import Mathlib

/-!
Package `status` (kumose-go/status): the leaf `status` and the `DictStatus` aggregator.

A shallow embedding of `src/status.go` and `src/dict.go`.

* Go pointers to leaf statuses are references into a heap of `status` records, so that
  two interface values holding the same pointer alias the same record (the default
  combiner returns one of the children itself, not a copy).
* A Go `map[string]T` is the list of its entries. Every `range` over a map takes the
  sequence in which the runtime yields the entries as an explicit argument; theorems
  quantify over every permutation of the entries.
* A panic is the result `none`; the state reached at the moment of the panic is returned
  next to it.
-/

namespace GoStatus

/-! ## status.go: codes, levels, frames -/

/-- StatusCode is declared as `type StatusCode int`. -/
abbrev StatusCode := Int

def Ok : StatusCode := 0
def Cancelled : StatusCode := 1
def Unknown : StatusCode := 2
def InvalidArgument : StatusCode := 3
def DeadlineExceeded : StatusCode := 4
def NotFound : StatusCode := 5
def AlreadyExists : StatusCode := 6
def PermissionDenied : StatusCode := 7
def ResourceExhausted : StatusCode := 8
def FailedPrecondition : StatusCode := 9
def Aborted : StatusCode := 10
def OutOfRange : StatusCode := 11
def Unimplemented : StatusCode := 12
def Internal : StatusCode := 13
def Unavailable : StatusCode := 14
def DataLoss : StatusCode := 15
def Unauthenticated : StatusCode := 16
def IoError : StatusCode := 17

/-- Modelled from the spec: the constants of package clog (clog.InvalidLevel .. clog.FatalLevel)
are not part of this repository; the spec gives Level as the closed enumeration of severities
Invalid, Debug, Info, Warn, Error, Fatal. -/
inductive Level where
  | invalid
  | debug
  | info
  | warn
  | error
  | fatal
deriving DecidableEq, Repr

abbrev InvalidLevel : Level := Level.invalid
abbrev DebugLevel : Level := Level.debug
abbrev InfoLevel : Level := Level.info
abbrev WarnLevel : Level := Level.warn
abbrev ErrorLevel : Level := Level.error
abbrev FatalLevel : Level := Level.fatal

/-- The struct Frame: program counter, file, line and validity flag. -/
structure Frame where
  Pc : Nat
  File : String
  Line : Int
  Ok : Bool
deriving DecidableEq, Repr

/-! ## Go maps -/

/-- A Go `map[string]α`, as the list of its entries. -/
abbrev GoMap (α : Type) := List (String × α)

/-- The map assignment `m[k] = v`: overwrite the entry under `k`, or add one. -/
def GoMap.assign {α : Type} : GoMap α → String → α → GoMap α
  | [], k, v => [(k, v)]
  | (k1, v1) :: rest, k, v =>
    if k1 = k then (k, v) :: rest else (k1, v1) :: GoMap.assign rest k v

/-- The index expression `m[k]` on a `map[string]string`: the zero value "" when absent. -/
def GoMap.index (m : GoMap String) (k : String) : String :=
  (m.lookup k).getD ""

/-! ## status.go: the leaf status -/

/-- The struct status. -/
structure status where
  code : StatusCode
  level : Level
  message : String
  payload : GoMap String
  frame : List Frame
deriving DecidableEq, Repr

/-- NewStatusImpl: empty payload, InfoLevel, Ok, no frames (message is the zero value). -/
def NewStatusImpl : status :=
  { code := Ok, level := InfoLevel, message := "", payload := [], frame := [] }

def status.Code (s : status) : StatusCode := s.code

def status.Level (s : status) : GoStatus.Level := s.level

def status.Frame (s : status) : List GoStatus.Frame := s.frame

def status.Message (s : status) : String := s.message

/-- SetPayload: `s.payload[uri] = data`; the receiver is returned. -/
def status.SetPayload (s : status) (uri data : String) : status :=
  { s with payload := GoMap.assign s.payload uri data }

def status.Ok (s : status) : Bool := decide (s.Code = GoStatus.Ok)

def status.GetPayload (s : status) (uri : String) : String := GoMap.index s.payload uri

/-- A visitor `func(string, string) bool`: a closure over its own captured state `τ`. -/
abbrev Visitor (τ : Type) := τ → String → String → Bool × τ

/-- The loop of status.WalkPayload over the entries in the order `range s.payload` yields
them: call `fn`, break when it returns false. Returns the closure state and the list of
entries `fn` was called on, oldest first. -/
def walkLoop {τ : Type} (fn : Visitor τ) : List (String × String) → τ → τ × List (String × String)
  | [], t => (t, [])
  | (k, v) :: rest, t =>
    let r := fn t k v
    if !r.1 then (r.2, [(k, v)])
    else
      let q := walkLoop fn rest r.2
      (q.1, (k, v) :: q.2)

/-- WalkPayload: the loop over `range s.payload`, which yields the entries as `order`. -/
def status.WalkPayload {τ : Type} (fn : Visitor τ) (order : List (String × String))
    (_s : status) (t : τ) : τ × List (String × String) :=
  walkLoop fn order t

/-- Capture: append the frame `runtime.Caller(0)` reported (`caller0`) to `s.frame`. -/
def status.Capture (caller0 : GoStatus.Frame) (s : status) : status :=
  { s with frame := s.frame ++ [caller0] }

/-! ## The heap and interface values of type Status -/

/-- A pointer `*status`. -/
abbrev Ref := Nat

/-- The allocated leaf statuses; `Ref` r is the r-th allocation. -/
abbrev Heap := List status

/-- A value of the interface type Status: nil, or a pointer to a leaf status. `*status` is the
only type of the package that has all nine methods of the interface. -/
inductive Status where
  | nil
  | ptr (r : Ref)
deriving DecidableEq, Repr

/-- The record an interface value points to; `none` for nil (a method call on it panics). -/
def Heap.deref (h : Heap) : Status → Option status
  | Status.nil => none
  | Status.ptr r => h[r]?

/-- Allocation `&status{...}`. -/
def Heap.alloc (h : Heap) (o : status) : Status × Heap := (Status.ptr h.length, h ++ [o])

/-- Store through a pointer. -/
def Heap.store (h : Heap) (r : Ref) (o : status) : Heap := h.set r o

def Status.Code (h : Heap) (s : Status) : Option StatusCode := (h.deref s).map status.Code

def Status.Level (h : Heap) (s : Status) : Option GoStatus.Level := (h.deref s).map status.Level

def Status.Message (h : Heap) (s : Status) : Option String := (h.deref s).map status.Message

def Status.Frame (h : Heap) (s : Status) : Option (List GoStatus.Frame) :=
  (h.deref s).map status.Frame

def Status.GetPayload (h : Heap) (s : Status) (uri : String) : Option String :=
  (h.deref s).map (fun o => o.GetPayload uri)

def Status.Ok (h : Heap) (s : Status) : Option Bool := (h.deref s).map status.Ok

/-- Method call `s.SetPayload(uri, data)` through the interface: mutates the pointee. -/
def Status.SetPayload (h : Heap) (s : Status) (uri data : String) : Option Status × Heap :=
  match s with
  | Status.nil => (none, h)
  | Status.ptr r =>
    match h[r]? with
    | none => (none, h)
    | some o => (some s, h.store r (o.SetPayload uri data))

/-- Method call `s.Capture()` through the interface: mutates the pointee. -/
def Status.Capture (caller0 : GoStatus.Frame) (h : Heap) (s : Status) : Option Status × Heap :=
  match s with
  | Status.nil => (none, h)
  | Status.ptr r =>
    match h[r]? with
    | none => (none, h)
    | some o => (some s, h.store r (o.Capture caller0))

/-- Method call `s.WalkPayload(fn)` through the interface; `order` is the sequence in which
`range s.payload` yields the entries. -/
def Status.WalkPayload {τ : Type} (fn : Visitor τ) (order : List (String × String))
    (h : Heap) (s : Status) (t : τ) : Option Unit × τ × List (String × String) :=
  match h.deref s with
  | none => (none, t, [])
  | some o =>
    let q := o.WalkPayload fn order t
    (some (), q.1, q.2)

/-- The leveled constructors: NewStatusImpl, then code, level and message are set. -/
def mkStatus (lvl : Level) (code : StatusCode) (msg : String) : status :=
  { NewStatusImpl with code := code, level := lvl, message := msg }

def Debug (code : StatusCode) (msg : String) (h : Heap) : Status × Heap :=
  h.alloc (mkStatus DebugLevel code msg)

def Info (code : StatusCode) (msg : String) (h : Heap) : Status × Heap :=
  h.alloc (mkStatus InfoLevel code msg)

def Warn (code : StatusCode) (msg : String) (h : Heap) : Status × Heap :=
  h.alloc (mkStatus WarnLevel code msg)

def Error (code : StatusCode) (msg : String) (h : Heap) : Status × Heap :=
  h.alloc (mkStatus ErrorLevel code msg)

def Fatal (code : StatusCode) (msg : String) (h : Heap) : Status × Heap :=
  h.alloc (mkStatus FatalLevel code msg)

def NewOk (msg : String) (h : Heap) : Status × Heap := Info Ok msg h

/-! ## dict.go: the combiner capability -/

/-- An object implementing the interface DictCombiner: its own mutable state and its method
`Combine(children map[string]Status) Status`. The map argument is given by its entries in the
order in which a range over it yields them during the call. `Combine` may read and write the
heap of leaf statuses and its own state, return any Status (nil included), or panic (`none`). -/
structure DictCombiner (σ : Type) where
  state : σ
  Combine : σ → GoMap Status → Heap → Option Status × σ × Heap

/-- DefaultCombiner.Combine: the first child yielded by `range s` whose code is not Ok,
else a newly allocated `Info(Ok, "")`. A nil child panics at `c.Code()`. -/
def DefaultCombiner.Combine : GoMap Status → Heap → Option Status × Heap
  | [], h =>
    let r := Info Ok "" h
    (some r.1, r.2)
  | (_, c) :: rest, h =>
    match Status.Code h c with
    | none => (none, h)
    | some code => if code ≠ Ok then (some c, h) else DefaultCombiner.Combine rest h

/-- The value `&DefaultCombiner{}`: the struct has no fields. -/
def DefaultCombiner : DictCombiner Unit :=
  { state := (),
    Combine := fun _ s h => ((DefaultCombiner.Combine s h).1, (), (DefaultCombiner.Combine s h).2) }

/-! ## dict.go: DictStatus -/

/-- The struct DictStatus, as NewDictStatus and the methods build it: the children map and
the combiner are never nil; `base` is nil until the first combination. -/
structure DictStatus (σ : Type) where
  base : Status
  children : GoMap Status
  combiner : DictCombiner σ

/-- One DictStatus together with the heap of leaf statuses its children and base point into.
`combines` is bookkeeping that is not in the source: the argument of every invocation of
`d.combiner.Combine` made so far, oldest first. -/
structure World (σ : Type) where
  d : DictStatus σ
  heap : Heap
  combines : List (GoMap Status)

/-- NewDictStatus: nil base, empty children map, the default combiner. -/
def NewDictStatus : DictStatus Unit :=
  { base := Status.nil, children := [], combiner := DefaultCombiner }

/-- The method ensureCombined: `if d.base == nil { d.base = d.combiner.Combine(d.children) }`.
`order` is `d.children` as the combiner sees it when ranging over it. -/
def DictStatus.ensureCombined {σ : Type} (order : GoMap Status) (w : World σ) :
    Option Unit × World σ :=
  if w.d.base = Status.nil then
    let r := w.d.combiner.Combine w.d.combiner.state order w.heap
    let c : DictCombiner σ := { state := r.2.1, Combine := w.d.combiner.Combine }
    match r.1 with
    | none =>
      (none, { d := { base := w.d.base, children := w.d.children, combiner := c },
               heap := r.2.2, combines := w.combines ++ [order] })
    | some b =>
      (some (), { d := { base := b, children := w.d.children, combiner := c },
                  heap := r.2.2, combines := w.combines ++ [order] })
  else (some (), w)

/-- The method SetCombiner: `d.combiner = c`. -/
def DictStatus.SetCombiner {σ τ : Type} (c : DictCombiner τ) (w : World σ) : World τ :=
  { d := { base := w.d.base, children := w.d.children, combiner := c },
    heap := w.heap, combines := w.combines }

/-- The method AddChild: panic when `d.base != nil`, else `d.children[key] = s`.
The returned pointer is the receiver (the `()` of the result). -/
def DictStatus.AddChild {σ : Type} (key : String) (s : Status) (w : World σ) :
    Option Unit × World σ :=
  if w.d.base ≠ Status.nil then (none, w)
  else
    (some (), { d := { base := w.d.base, children := GoMap.assign w.d.children key s,
                       combiner := w.d.combiner },
                heap := w.heap, combines := w.combines })

def DictStatus.Code {σ : Type} (order : GoMap Status) (w : World σ) :
    Option StatusCode × World σ :=
  match DictStatus.ensureCombined order w with
  | (none, w1) => (none, w1)
  | (some _, w1) => (Status.Code w1.heap w1.d.base, w1)

def DictStatus.Level {σ : Type} (order : GoMap Status) (w : World σ) :
    Option GoStatus.Level × World σ :=
  match DictStatus.ensureCombined order w with
  | (none, w1) => (none, w1)
  | (some _, w1) => (Status.Level w1.heap w1.d.base, w1)

def DictStatus.Message {σ : Type} (order : GoMap Status) (w : World σ) :
    Option String × World σ :=
  match DictStatus.ensureCombined order w with
  | (none, w1) => (none, w1)
  | (some _, w1) => (Status.Message w1.heap w1.d.base, w1)

def DictStatus.Frame {σ : Type} (order : GoMap Status) (w : World σ) :
    Option (List GoStatus.Frame) × World σ :=
  match DictStatus.ensureCombined order w with
  | (none, w1) => (none, w1)
  | (some _, w1) => (Status.Frame w1.heap w1.d.base, w1)

def DictStatus.GetPayload {σ : Type} (order : GoMap Status) (uri : String) (w : World σ) :
    Option String × World σ :=
  match DictStatus.ensureCombined order w with
  | (none, w1) => (none, w1)
  | (some _, w1) => (Status.GetPayload w1.heap w1.d.base uri, w1)

/-- The loop `for _, s := range d.children { s.WalkPayload(fn) }`; every element of `loop` is a
child in the order the range yields them, with the order in which that child's own payload
range yields its entries. -/
def walkChildren {τ : Type} (fn : Visitor τ) (h : Heap) :
    List (String × Status × List (String × String)) → τ →
      Option Unit × τ × List (String × String)
  | [], t => (some (), t, [])
  | (_, s, order) :: rest, t =>
    match Status.WalkPayload fn order h s t with
    | (none, t1, vis) => (none, t1, vis)
    | (some _, t1, vis) =>
      let q := walkChildren fn h rest t1
      (q.1, q.2.1, vis ++ q.2.2)

/-- The method WalkPayload: `d.base.WalkPayload(fn)`, then the loop over the children. There
is no call of ensureCombined. Returns the visitor state, the entries visited (oldest first)
and the world, which the method does not write. -/
def DictStatus.WalkPayload {σ τ : Type} (fn : Visitor τ) (t : τ)
    (baseOrder : List (String × String))
    (loop : List (String × Status × List (String × String))) (w : World σ) :
    Option Unit × τ × List (String × String) × World σ :=
  match Status.WalkPayload fn baseOrder w.heap w.d.base t with
  | (none, t1, vis) => (none, t1, vis, w)
  | (some _, t1, vis) =>
    let q := walkChildren fn w.heap loop t1
    (q.1, q.2.1, vis ++ q.2.2, w)

/-- The method SetPayload: ensureCombined, `d.base.SetPayload(uri, data)`, return d. -/
def DictStatus.SetPayload {σ : Type} (order : GoMap Status) (uri data : String)
    (w : World σ) : Option Unit × World σ :=
  match DictStatus.ensureCombined order w with
  | (none, w1) => (none, w1)
  | (some _, w1) =>
    let r := Status.SetPayload w1.heap w1.d.base uri data
    (r.1.map (fun _ => ()), { d := w1.d, heap := r.2, combines := w1.combines })

/-- The loop `for _, s := range d.children { s.Capture() }`; `rt i` is what runtime.Caller(0)
reports in the i-th call of status.Capture made by DictStatus.Capture. -/
def captureLoop (rt : Nat → GoStatus.Frame) : Nat → GoMap Status → Heap → Option Unit × Heap
  | _, [], h => (some (), h)
  | i, (_, s) :: rest, h =>
    match Status.Capture (rt i) h s with
    | (none, h1) => (none, h1)
    | (some _, h1) => captureLoop rt (i + 1) rest h1

/-- The method Capture: ensureCombined, `d.base.Capture()`, then `s.Capture()` for every
child in the order `loop` of the range, return d. -/
def DictStatus.Capture {σ : Type} (order loop : GoMap Status) (rt : Nat → GoStatus.Frame)
    (w : World σ) : Option Unit × World σ :=
  match DictStatus.ensureCombined order w with
  | (none, w1) => (none, w1)
  | (some _, w1) =>
    match Status.Capture (rt 0) w1.heap w1.d.base with
    | (none, h1) => (none, { d := w1.d, heap := h1, combines := w1.combines })
    | (some _, h1) =>
      let q := captureLoop rt 1 loop h1
      (q.1, { d := w1.d, heap := q.2, combines := w1.combines })

/-! ## Sequences of accessor calls -/

/-- One call of an accessor of DictStatus that goes through ensureCombined, with the choices
the runtime makes during the call. -/
inductive Call where
  | Code (order : GoMap Status)
  | Level (order : GoMap Status)
  | Message (order : GoMap Status)
  | Frame (order : GoMap Status)
  | GetPayload (order : GoMap Status) (uri : String)
  | SetPayload (order : GoMap Status) (uri data : String)
  | Capture (order loop : GoMap Status) (rt : Nat → GoStatus.Frame)

/-- The children mapping as the call hands it to ensureCombined. -/
def Call.order : Call → GoMap Status
  | Call.Code o => o
  | Call.Level o => o
  | Call.Message o => o
  | Call.Frame o => o
  | Call.GetPayload o _ => o
  | Call.SetPayload o _ _ => o
  | Call.Capture o _ _ => o

/-- What an accessor returns; `self` is the receiver returned by SetPayload and Capture. -/
inductive Value where
  | code (c : StatusCode)
  | level (l : Level)
  | message (m : String)
  | frames (f : List Frame)
  | payload (p : String)
  | self
deriving DecidableEq, Repr

def DictStatus.call {σ : Type} (c : Call) (w : World σ) : Option Value × World σ :=
  match c with
  | Call.Code o => ((DictStatus.Code o w).1.map Value.code, (DictStatus.Code o w).2)
  | Call.Level o => ((DictStatus.Level o w).1.map Value.level, (DictStatus.Level o w).2)
  | Call.Message o => ((DictStatus.Message o w).1.map Value.message, (DictStatus.Message o w).2)
  | Call.Frame o => ((DictStatus.Frame o w).1.map Value.frames, (DictStatus.Frame o w).2)
  | Call.GetPayload o uri =>
    ((DictStatus.GetPayload o uri w).1.map Value.payload, (DictStatus.GetPayload o uri w).2)
  | Call.SetPayload o uri data =>
    ((DictStatus.SetPayload o uri data w).1.map (fun _ => Value.self),
     (DictStatus.SetPayload o uri data w).2)
  | Call.Capture o loop rt =>
    ((DictStatus.Capture o loop rt w).1.map (fun _ => Value.self),
     (DictStatus.Capture o loop rt w).2)

/-- Calls made one after the other; a panic ends the run in the state it left. -/
def DictStatus.run {σ : Type} : List Call → World σ → Option (List Value) × World σ
  | [], w => (some [], w)
  | c :: rest, w =>
    match DictStatus.call c w with
    | (none, w1) => (none, w1)
    | (some v, w1) =>
      let q := DictStatus.run rest w1
      (q.1.map (fun vs => v :: vs), q.2)

/-! ## Predicates and example values used by the statements -/

/-- Every child of the mapping is a pointer to an allocated leaf status. -/
def ChildrenLive (h : Heap) (m : GoMap Status) : Prop :=
  ∀ e ∈ m, (h.deref e.2).isSome = true

instance (h : Heap) (m : GoMap Status) : Decidable (ChildrenLive h m) := by
  unfold ChildrenLive
  infer_instance

/-- A DictStatus that is still open: nil base, the given children and combiner. -/
def openWorld {σ : Type} (m : GoMap Status) (c : DictCombiner σ) (h : Heap)
    (log : List (GoMap Status)) : World σ :=
  { d := { base := Status.nil, children := m, combiner := c }, heap := h, combines := log }

/-- The heap after `a := Info(Ok, "")` and `b := Error(Internal, "boom")`. -/
def abHeap : Heap := (Error Internal "boom" (Info Ok "" []).2).2

/-- The pointer returned by `Info(Ok, "")` in abHeap. -/
def abA : Status := (Info Ok "" []).1

/-- The pointer returned by `Error(Internal, "boom")` in abHeap. -/
def abB : Status := (Error Internal "boom" (Info Ok "" []).2).1

/-- `NewDictStatus().AddChild("a", a).AddChild("b", b)`. -/
def abWorld : World Unit :=
  (DictStatus.AddChild "b" abB
    (DictStatus.AddChild "a" abA { d := NewDictStatus, heap := abHeap, combines := [] }).2).2

/-- A combiner stub that counts its invocations in its own state and returns a newly
allocated `Info(Ok, "")`. -/
def countingCombiner : DictCombiner Nat :=
  { state := 0,
    Combine := fun n _ h => (some (Info Ok "" h).1, n + 1, (Info Ok "" h).2) }

/-- The new DictStatus with the counting stub, after its first `Code()`. -/
def countedWorld : World Nat := (DictStatus.Code [] (openWorld [] countingCombiner [] [])).2

/-- The DictStatus of abWorld after its first `Code()`, ranged over as a, b. -/
def abCombined : World Unit := (DictStatus.Code [("a", abA), ("b", abB)] abWorld).2

/-- The heap after `c := Info(Ok, "")` and `c.SetPayload("y", "2")`. -/
def xyHeap : Heap := (Status.SetPayload (Info Ok "" []).2 (Info Ok "" []).1 "y" "2").2

/-- The pointer `c` of xyHeap. -/
def xyChild : Status := (Info Ok "" []).1

/-- `NewDictStatus().AddChild("c", c)` over xyHeap: still open. -/
def xyOpen : World Unit :=
  (DictStatus.AddChild "c" xyChild { d := NewDictStatus, heap := xyHeap, combines := [] }).2

/-- The DictStatus of xyOpen after `SetPayload("x", "1")`: combined, base payload x = 1 and one
child with payload y = 2. -/
def xyWorld : World Unit := (DictStatus.SetPayload [("c", xyChild)] "x" "1" xyOpen).2

/-- A visitor that always returns true and counts its calls. -/
def countTrue : Visitor Nat := fun n _ _ => (true, n + 1)

/-- The method set of the interface Status (status.go, the interface declaration). -/
def Status.methodSet : List String :=
  ["Code", "Level", "Message", "Frame", "GetPayload", "WalkPayload", "SetPayload", "Capture",
   "Ok"]

/-- The methods declared with receiver `*status` in status.go. -/
def status.methodSet : List String :=
  ["Code", "Level", "Frame", "Message", "SetPayload", "Ok", "GetPayload", "WalkPayload",
   "Capture"]

/-- The methods declared with receiver `*DictStatus` in dict.go. -/
def DictStatus.methodSet : List String :=
  ["ensureCombined", "SetCombiner", "AddChild", "Code", "Level", "Message", "Frame",
   "GetPayload", "WalkPayload", "SetPayload", "Capture"]

/-- What `d.combiner.Combine(d.children)` returns on the heap of w: the status (`none` for a
panic), the state of the combiner and the heap afterwards. -/
def World.combined {σ : Type} (order : GoMap Status) (w : World σ) : Option Status × σ × Heap :=
  w.d.combiner.Combine w.d.combiner.state order w.heap

/-- The five leveled constructors of status.go. -/
inductive Leveled where
  | debug
  | info
  | warn
  | error
  | fatal
deriving DecidableEq, Repr

/-- The level each leveled constructor assigns (`s.level = ...`). -/
def Leveled.level : Leveled → Level
  | Leveled.debug => DebugLevel
  | Leveled.info => InfoLevel
  | Leveled.warn => WarnLevel
  | Leveled.error => ErrorLevel
  | Leveled.fatal => FatalLevel

/-- The function of status.go each name stands for. -/
def Leveled.make : Leveled → StatusCode → String → Heap → Status × Heap
  | Leveled.debug => GoStatus.Debug
  | Leveled.info => GoStatus.Info
  | Leveled.warn => GoStatus.Warn
  | Leveled.error => GoStatus.Error
  | Leveled.fatal => GoStatus.Fatal

/-- One call of a mutating method of a leaf status, with what the runtime reports to it. -/
inductive LeafCall where
  | SetPayload (uri data : String)
  | Capture (caller0 : Frame)

/-- The call `s.SetPayload(uri, data)` or `s.Capture()` through the interface. -/
def Status.call (c : LeafCall) (h : Heap) (s : Status) : Option Status × Heap :=
  match c with
  | LeafCall.SetPayload uri data => Status.SetPayload h s uri data
  | LeafCall.Capture caller0 => Status.Capture caller0 h s

/-- A chain of calls `s.m1(...).m2(...)...`: every call is made on the status the previous
call returned; a panic ends the chain. -/
def Status.run : List LeafCall → Heap → Status → Option Status × Heap
  | [], h, s => (some s, h)
  | c :: rest, h, s =>
    match Status.call c h s with
    | (none, h1) => (none, h1)
    | (some s1, h1) => Status.run rest h1 s1

/-- The function runtime.Caller of the Go runtime, which status.go calls and the repository
does not define, by its documented contract: `skip` is the number of stack frames to ascend,
with 0 identifying the caller of Caller. `stack` is the stack of the goroutine at the call,
innermost frame first, so that its first frame is the function that calls runtime.Caller;
when the stack is not that deep all results are zero and ok is false. -/
def runtimeCaller (stack : List Frame) (skip : Nat) : Frame :=
  (stack[skip]?).getD { Pc := 0, File := "", Line := 0, Ok := false }

/-- The frame of a running status.Capture at its call of runtime.Caller, status.go line 159,
with the program counter and the file path the build gives that instruction. -/
def captureFrame (pc : Nat) (file : String) : Frame :=
  { Pc := pc, File := file, Line := 159, Ok := true }

/-- The method status.Capture called from the call site `site` (the frame of the immediate
caller, at its call of Capture) below the outer frames `outer`: `runtime.Caller(0)` is asked
on the stack whose innermost frame is that of Capture itself. -/
def status.CaptureFrom (pc : Nat) (file : String) (site : GoStatus.Frame)
    (outer : List GoStatus.Frame)
    (s : status) : status :=
  s.Capture (runtimeCaller (captureFrame pc file :: site :: outer) 0)

/-- The state of a visitor after it was called on the entries `es`, in this order. -/
def visitorState {τ : Type} (fn : Visitor τ) (t : τ) (es : List (String × String)) : τ :=
  es.foldl (fun u e => (fn u e.1 e.2).2) t

/-- A visitor that always returns false and counts its calls. -/
def countFalse : Visitor Nat := fun n _ _ => (false, n + 1)

/-- A visitor that returns true until it has been called twice, counting its calls. -/
def stopAtTwo : Visitor Nat := fun n _ _ => (decide (n + 1 < 2), n + 1)

/-- The length of `s.Frame()` on the heap h; 0 when s is not (yet) an allocated status. -/
def frameLen (h : Heap) (s : Status) : Nat :=
  ((h.deref s).map (fun o => o.frame.length)).getD 0

/-- The payload of s on the heap h; empty when s is not an allocated status. -/
def payloadOf (h : Heap) (s : Status) : GoMap String :=
  ((h.deref s).map (fun o => o.payload)).getD []

/-- Calls made one after the other, each from a function that recovers from a panic: a call
that panics gives `none` and the sequence goes on in the state the panic left. -/
def DictStatus.calls {σ : Type} : List Call → World σ → List (Option Value) × World σ
  | [], w => ([], w)
  | c :: rest, w =>
    ((DictStatus.call c w).1 :: (DictStatus.calls rest (DictStatus.call c w).2).1,
     (DictStatus.calls rest (DictStatus.call c w).2).2)

/-- The accessors that only read: Code, Level, Message, Frame and GetPayload. -/
def Call.isRead : Call → Bool
  | Call.Code _ => true
  | Call.Level _ => true
  | Call.Message _ => true
  | Call.Frame _ => true
  | Call.GetPayload _ _ => true
  | Call.SetPayload _ _ _ => false
  | Call.Capture _ _ _ => false

/-- What the accessor of the same name returns when it is called on the status s itself, on
the heap h (`none`: the call panics); stated for the accessors that only read. -/
def Call.onStatus (c : Call) (h : Heap) (s : Status) : Option Value :=
  match c with
  | Call.Code _ => (Status.Code h s).map Value.code
  | Call.Level _ => (Status.Level h s).map Value.level
  | Call.Message _ => (Status.Message h s).map Value.message
  | Call.Frame _ => (Status.Frame h s).map Value.frames
  | Call.GetPayload _ uri => (Status.GetPayload h s uri).map Value.payload
  | Call.SetPayload _ _ _ => none
  | Call.Capture _ _ _ => none

/-- A combiner stub that counts its invocations in its own state and returns nil. -/
def nilCombiner : DictCombiner Nat :=
  { state := 0, Combine := fun n _ h => (some Status.nil, n + 1, h) }

/-- A combiner stub that records in its own state the mapping of every invocation, oldest
first, and returns a newly allocated `Info(Ok, "")`. -/
def recordingCombiner : DictCombiner (List (GoMap Status)) :=
  { state := [],
    Combine := fun log m h => (some (Info Ok "" h).1, log ++ [m], (Info Ok "" h).2) }

/-- The heap after `c := Info(Ok, "")`, `c.SetPayload("y", "2")`, `c.SetPayload("z", "3")`. -/
def wideHeap : Heap := (Status.SetPayload xyHeap xyChild "z" "3").2

/-- `NewDictStatus().AddChild("c", c)` over wideHeap: still open. -/
def wideOpen : World Unit :=
  (DictStatus.AddChild "c" xyChild { d := NewDictStatus, heap := wideHeap, combines := [] }).2

/-- The DictStatus of wideOpen after `SetPayload("x", "1")` and `SetPayload("w", "4")`:
combined, base payload x = 1, w = 4 and one child with payload y = 2, z = 3. -/
def wideWorld : World Unit :=
  (DictStatus.SetPayload [("c", xyChild)] "w" "4"
    (DictStatus.SetPayload [("c", xyChild)] "x" "1" wideOpen).2).2

/-- A visitor that always returns true and records in its state the entries it is called on,
oldest first. -/
def recordTrue : Visitor (List (String × String)) := fun log k v => (true, log ++ [(k, v)])

/-! ## Theorems -/

/-- The default combiner skips a prefix of Ok children and returns the child after it. -/
theorem DefaultCombiner.Combine_append (h : Heap) (pre : GoMap Status) (k : String)
    (c : Status) (post : GoMap Status) (o : status)
    (hpre : ∀ e ∈ pre, Status.Code h e.2 = some Ok)
    (hc : h.deref c = some o) (hne : o.code ≠ Ok) :
    DefaultCombiner.Combine (pre ++ (k, c) :: post) h = (some c, h) := by
  induction pre with
  | nil => simp [DefaultCombiner.Combine, Status.Code, hc, status.Code, hne]
  | cons e rest ih =>
    obtain ⟨k1, c1⟩ := e
    have h1 : Status.Code h c1 = some Ok := hpre (k1, c1) (by simp)
    have h2 : ∀ e ∈ rest, Status.Code h e.2 = some Ok := fun e he => hpre e (by simp [he])
    simp [DefaultCombiner.Combine, h1, ih h2]

/-- A sequence of live children with a child that is not Ok splits at the first such child. -/
theorem exists_first_not_ok (h : Heap) (order : GoMap Status)
    (hlive : ChildrenLive h order)
    (hbad : ∃ e ∈ order, ∃ o, h.deref e.2 = some o ∧ o.code ≠ Ok) :
    ∃ pre k c post o, order = pre ++ (k, c) :: post ∧
      (∀ e ∈ pre, Status.Code h e.2 = some Ok) ∧ h.deref c = some o ∧ o.code ≠ Ok := by
  induction order with
  | nil => simp at hbad
  | cons e rest ih =>
    obtain ⟨k1, c1⟩ := e
    have hl1 := hlive (k1, c1) (by simp)
    obtain ⟨o1, ho1⟩ := Option.isSome_iff_exists.mp hl1
    by_cases hok : o1.code = Ok
    · have hlive2 : ChildrenLive h rest := fun e he => hlive e (by simp [he])
      have hbad2 : ∃ e ∈ rest, ∃ o, h.deref e.2 = some o ∧ o.code ≠ Ok := by
        obtain ⟨e, he, o, ho, hno⟩ := hbad
        rcases List.mem_cons.mp he with heq | hin
        · subst heq
          simp only at ho
          rw [ho1] at ho
          cases ho
          exact absurd hok hno
        · exact ⟨e, hin, o, ho, hno⟩
      obtain ⟨pre, k, c, post, o, hsplit, hpre, hc, hne⟩ := ih hlive2 hbad2
      refine ⟨(k1, c1) :: pre, k, c, post, o, by simp [hsplit], ?_, hc, hne⟩
      intro e he
      rcases List.mem_cons.mp he with heq | hin
      · subst heq
        simp [Status.Code, ho1, status.Code, hok]
      · exact hpre e hin
    · exact ⟨[], k1, c1, rest, o1, by simp, by simp, ho1, hok⟩

/-- The default combiner on children that are all Ok allocates `Info(Ok, "")`. -/
theorem DefaultCombiner.Combine_all_ok (h : Heap) (order : GoMap Status)
    (hok : ∀ e ∈ order, Status.Code h e.2 = some Ok) :
    DefaultCombiner.Combine order h
      = (some (Status.ptr h.length), h ++ [mkStatus InfoLevel Ok ""]) := by
  induction order with
  | nil => simp [DefaultCombiner.Combine, Info, Heap.alloc]
  | cons e rest ih =>
    obtain ⟨k1, c1⟩ := e
    have h1 : Status.Code h c1 = some Ok := hok (k1, c1) (by simp)
    have h2 : ∀ e ∈ rest, Status.Code h e.2 = some Ok := fun e he => hok e (by simp [he])
    simp [DefaultCombiner.Combine, h1, ih h2]

/-- C2: for every open DictStatus with the default combiner whose children (none at all
included) all have code Ok, and every iteration order, the first read combines to a newly
allocated `Info(Ok, "")`: Code() is Ok, Message() is "", Level() is Info, Frame() is empty and
GetPayload gives "" for every key; the base record has an empty payload and no frames. -/
theorem C2_all_ok_children_combine_to_ok (m order : GoMap Status) (h : Heap)
    (log : List (GoMap Status)) (hperm : order.Perm m)
    (hok : ∀ e ∈ m, Status.Code h e.2 = some Ok) :
    (DictStatus.Code order (openWorld m DefaultCombiner h log)).1 = some Ok ∧
    (DictStatus.Message order (openWorld m DefaultCombiner h log)).1 = some "" ∧
    (DictStatus.Level order (openWorld m DefaultCombiner h log)).1 = some InfoLevel ∧
    (DictStatus.Frame order (openWorld m DefaultCombiner h log)).1 = some [] ∧
    (∀ uri, (DictStatus.GetPayload order uri (openWorld m DefaultCombiner h log)).1 = some "") ∧
    (∃ o, (DictStatus.Code order (openWorld m DefaultCombiner h log)).2.heap.deref
            (DictStatus.Code order (openWorld m DefaultCombiner h log)).2.d.base = some o ∧
          o = mkStatus InfoLevel Ok "" ∧ o.payload = [] ∧ o.frame = []) := by
  have hok2 : ∀ e ∈ order, Status.Code h e.2 = some Ok := fun e he => hok e (hperm.subset he)
  have hcomb := DefaultCombiner.Combine_all_ok h order hok2
  refine ⟨?_, ?_, ?_, ?_, ?_, ?_⟩
  all_goals
    simp [DictStatus.Code, DictStatus.Message, DictStatus.Level, DictStatus.Frame,
      DictStatus.GetPayload, DictStatus.ensureCombined,
      openWorld, DefaultCombiner, hcomb, Status.Code, Status.Message, Status.Level,
      Status.Frame, Status.GetPayload, Heap.deref,
      status.Code, status.Message, status.Level, status.Frame, status.GetPayload,
      mkStatus, NewStatusImpl, GoMap.index]

/-- C2 at the DictStatus without children and at the one whose only child is `Info(Ok, "")`. -/
theorem C2_all_ok_children_combine_to_ok_witness :
    ((DictStatus.Code [] (openWorld [] DefaultCombiner [] [])).1 = some Ok ∧
     (DictStatus.Message [] (openWorld [] DefaultCombiner [] [])).1 = some "" ∧
     (DictStatus.Level [] (openWorld [] DefaultCombiner [] [])).1 = some InfoLevel ∧
     (DictStatus.Frame [] (openWorld [] DefaultCombiner [] [])).1 = some [] ∧
     (∀ uri, (DictStatus.GetPayload [] uri (openWorld [] DefaultCombiner [] [])).1 = some "") ∧
     (∃ o, (DictStatus.Code [] (openWorld [] DefaultCombiner [] [])).2.heap.deref
             (DictStatus.Code [] (openWorld [] DefaultCombiner [] [])).2.d.base = some o ∧
           o = mkStatus InfoLevel Ok "" ∧ o.payload = [] ∧ o.frame = [])) ∧
    (∀ e ∈ [("a", abA)], Status.Code (Info Ok "" []).2 e.2 = some Ok) ∧
    (DictStatus.Code [("a", abA)]
      (openWorld [("a", abA)] DefaultCombiner (Info Ok "" []).2 [])).1 = some Ok ∧
    (DictStatus.Message [("a", abA)]
      (openWorld [("a", abA)] DefaultCombiner (Info Ok "" []).2 [])).1 = some "" :=
  ⟨C2_all_ok_children_combine_to_ok [] [] [] [] (List.Perm.refl _) (by decide),
   by decide,
   (C2_all_ok_children_combine_to_ok [("a", abA)] [("a", abA)] (Info Ok "" []).2 []
      (List.Perm.refl _) (by decide)).1,
   (C2_all_ok_children_combine_to_ok [("a", abA)] [("a", abA)] (Info Ok "" []).2 []
      (List.Perm.refl _) (by decide)).2.1⟩

/-- On a combined DictStatus ensureCombined does nothing. -/
theorem DictStatus.ensureCombined_closed {σ : Type} (order : GoMap Status) (w : World σ)
    (hb : w.d.base ≠ Status.nil) : DictStatus.ensureCombined order w = (some (), w) := by
  simp [DictStatus.ensureCombined, hb]

/-- On an open DictStatus ensureCombined invokes the combiner, once. -/
theorem DictStatus.ensureCombined_open {σ : Type} (order : GoMap Status) (w : World σ)
    (hb : w.d.base = Status.nil) :
    (DictStatus.ensureCombined order w).2.combines = w.combines ++ [order] := by
  simp only [DictStatus.ensureCombined, hb, if_true]
  split <;> rfl

/-- An accessor call leaves the DictStatus and the record of invocations as ensureCombined
left them. -/
theorem DictStatus.call_frame {σ : Type} (c : Call) (w : World σ) :
    (DictStatus.call c w).2.combines = (DictStatus.ensureCombined c.order w).2.combines ∧
    (DictStatus.call c w).2.d = (DictStatus.ensureCombined c.order w).2.d := by
  cases c <;>
    simp only [DictStatus.call, DictStatus.Code, DictStatus.Level, DictStatus.Message,
      DictStatus.Frame, DictStatus.GetPayload, DictStatus.SetPayload, DictStatus.Capture,
      Call.order] <;>
    rcases hE : DictStatus.ensureCombined _ w with ⟨_ | u, w1⟩ <;>
    simp only [and_self]
  rename_i o loop rt
  rcases hC : Status.Capture (rt 0) w1.heap w1.d.base with ⟨_ | u, h1⟩ <;> simp only [and_self]

/-- An accessor call that returns has a base to delegate to. -/
theorem DictStatus.call_returns_base {σ : Type} (c : Call) (w : World σ) (v : Value)
    (hv : (DictStatus.call c w).1 = some v) : (DictStatus.call c w).2.d.base ≠ Status.nil := by
  rw [(DictStatus.call_frame c w).2]
  intro hnil
  cases c <;>
    simp only [DictStatus.call, DictStatus.Code, DictStatus.Level, DictStatus.Message,
      DictStatus.Frame, DictStatus.GetPayload, DictStatus.SetPayload, DictStatus.Capture,
      Call.order] at hv hnil <;>
    rcases hE : DictStatus.ensureCombined _ w with ⟨_ | u, w1⟩ <;>
    rw [hE] at hv hnil <;>
    simp only [Option.map_none', reduceCtorEq] at hv <;>
    simp only at hnil <;>
    simp [hnil, Status.Code, Status.Level, Status.Message, Status.Frame, Status.GetPayload,
      Status.SetPayload, Status.Capture, Heap.deref] at hv

/-- A run on a combined DictStatus never invokes the combiner and keeps the DictStatus. -/
theorem DictStatus.run_closed {σ : Type} (cs : List Call) (w : World σ)
    (hb : w.d.base ≠ Status.nil) :
    (DictStatus.run cs w).2.combines = w.combines ∧ (DictStatus.run cs w).2.d = w.d := by
  induction cs generalizing w with
  | nil => simp [DictStatus.run]
  | cons c rest ih =>
    have hf := DictStatus.call_frame c w
    rw [DictStatus.ensureCombined_closed c.order w hb] at hf
    simp only [DictStatus.run]
    rcases hC : DictStatus.call c w with ⟨_ | v, w1⟩
    · rw [hC] at hf
      exact hf
    · rw [hC] at hf
      simp only at hf
      have hb1 : w1.d.base ≠ Status.nil := by rw [hf.2]; exact hb
      have := ih w1 hb1
      simp only
      exact ⟨this.1.trans hf.1, this.2.trans hf.2⟩

/-- C4: on every DictStatus whose base is present, AddChild panics for every key and status
and leaves the DictStatus, the heap and the record of invocations exactly as they were; this
holds after every accessor call that returned; and AddChild panics only when the base is
present. -/
theorem C4_add_child_after_combination_panics {σ : Type} (w : World σ) (key : String)
    (s : Status) :
    (w.d.base ≠ Status.nil → DictStatus.AddChild key s w = (none, w)) ∧
    (∀ c v, (DictStatus.call c w).1 = some v →
      DictStatus.AddChild key s (DictStatus.call c w).2 = (none, (DictStatus.call c w).2)) ∧
    ((DictStatus.AddChild key s w).1 = none ↔ w.d.base ≠ Status.nil) := by
  have h1 : ∀ u : World σ, u.d.base ≠ Status.nil → DictStatus.AddChild key s u = (none, u) := by
    intro u hu
    simp [DictStatus.AddChild, hu]
  refine ⟨h1 w, fun c v hv => h1 _ (DictStatus.call_returns_base c w v hv), ?_⟩
  by_cases hb : w.d.base = Status.nil <;> simp [DictStatus.AddChild, hb]

/-- C4 at the combined DictStatus with children a and b: `AddChild("c", a)` panics and the
children are still a and b. -/
theorem C4_add_child_after_combination_panics_witness :
    DictStatus.AddChild "c" abA abCombined = (none, abCombined) ∧
    (DictStatus.AddChild "c" abA abCombined).2.d.children = [("a", abA), ("b", abB)] ∧
    (DictStatus.AddChild "c" abA abCombined).2.d.base = abB ∧
    (DictStatus.AddChild "c" abA abWorld).1 = some () :=
  ⟨(C4_add_child_after_combination_panics abCombined "c" abA).1 (by decide),
   by decide, by decide, by decide⟩

/-- C5: on every open DictStatus (nil base) WalkPayload panics at `d.base.WalkPayload(fn)`:
the visitor is never called, no child is walked, and the DictStatus stays open with the
combiner not invoked. -/
theorem C5_walk_payload_on_open_panics {σ τ : Type} (fn : Visitor τ) (t : τ)
    (baseOrder : List (String × String))
    (loop : List (String × Status × List (String × String))) (w : World σ)
    (hb : w.d.base = Status.nil) :
    DictStatus.WalkPayload fn t baseOrder loop w = (none, t, [], w) ∧
    (DictStatus.WalkPayload fn t baseOrder loop w).2.2.2.d.base = Status.nil ∧
    (DictStatus.WalkPayload fn t baseOrder loop w).2.2.2.combines = w.combines := by
  simp [DictStatus.WalkPayload, Status.WalkPayload, Heap.deref, hb]

/-- C5 at `NewDictStatus().AddChild("c", c)` where c has the payload y = 2, and at the new
DictStatus without children: WalkPayload as the first read panics and visits nothing. -/
theorem C5_walk_payload_on_open_panics_witness :
    (DictStatus.WalkPayload countTrue 0 [] [("c", xyChild, [("y", "2")])] xyOpen
        = (none, 0, [], xyOpen) ∧
      (DictStatus.WalkPayload countTrue 0 [] [("c", xyChild,
        [("y", "2")])] xyOpen).2.2.2.d.base = Status.nil ∧
      (DictStatus.WalkPayload countTrue 0 [] [("c", xyChild,
        [("y", "2")])] xyOpen).2.2.2.combines = xyOpen.combines) ∧
    (DictStatus.WalkPayload countTrue 0 [] []
      { d := NewDictStatus, heap := [], combines := [] }).1 = none ∧
    (DictStatus.Code [("c", xyChild)] xyOpen).1 = some Ok :=
  ⟨C5_walk_payload_on_open_panics countTrue 0 [] [("c", xyChild, [("y", "2")])] xyOpen rfl,
   by decide, by decide⟩

/-- After `m[k] = v` the index expression `m[k]` gives `v`. -/
theorem GoMap.index_assign (m : GoMap String) (k v : String) :
    GoMap.index (GoMap.assign m k v) k = v := by
  induction m with
  | nil => simp [GoMap.assign, GoMap.index, List.lookup]
  | cons e rest ih =>
    obtain ⟨k1, v1⟩ := e
    by_cases hk : k1 = k
    · simp [GoMap.assign, GoMap.index, List.lookup, hk]
    · have hk2 : (k == k1) = false := by
        simp only [beq_eq_false_iff_ne, ne_eq]
        exact fun hc => hk hc.symm
      simp only [GoMap.index] at ih
      simp [GoMap.assign, GoMap.index, List.lookup, hk, hk2, ih]

/-- On live children the default combiner returns either one of the children, the heap left
as it was, or (all children being Ok) a newly allocated status. -/
theorem DefaultCombiner.Combine_cases (h : Heap) (order : GoMap Status)
    (hlive : ChildrenLive h order) :
    (∃ k c, (k, c) ∈ order ∧ DefaultCombiner.Combine order h = (some c, h)) ∨
    ((∀ e ∈ order, Status.Code h e.2 = some Ok) ∧
      DefaultCombiner.Combine order h
        = (some (Status.ptr h.length), h ++ [mkStatus InfoLevel Ok ""])) := by
  by_cases hbad : ∃ e ∈ order, ∃ o, h.deref e.2 = some o ∧ o.code ≠ Ok
  · left
    obtain ⟨pre, k, c, post, o, hsplit, hpre, hc, hne⟩ := exists_first_not_ok h order hlive hbad
    refine ⟨k, c, by simp [hsplit], ?_⟩
    rw [hsplit]
    exact DefaultCombiner.Combine_append h pre k c post o hpre hc hne
  · right
    have hok : ∀ e ∈ order, Status.Code h e.2 = some Ok := by
      intro e he
      obtain ⟨o, ho⟩ := Option.isSome_iff_exists.mp (hlive e he)
      have : o.code = Ok := by
        by_contra hno
        exact hbad ⟨e, he, o, ho, hno⟩
      simp [Status.Code, ho, status.Code, this]
    exact ⟨hok, DefaultCombiner.Combine_all_ok h order hok⟩

/-- A store through the pointer `r` is not seen through any other live pointer. -/
theorem Heap.deref_store_ne (h : Heap) (r : Ref) (o : status) (s : Status)
    (hs : s ≠ Status.ptr r) : (h.store r o).deref s = h.deref s := by
  cases s with
  | nil => rfl
  | ptr r2 =>
    have hne : r ≠ r2 := fun hc => hs (by rw [hc])
    simp [Heap.deref, Heap.store, List.getElem?_set_ne hne]

/-- An allocation is not seen through a live pointer. -/
theorem Heap.deref_append_live (h : Heap) (o : status) (s : Status)
    (hs : (h.deref s).isSome = true) : (h ++ [o]).deref s = h.deref s := by
  cases s with
  | nil => rfl
  | ptr r2 =>
    simp only [Heap.deref] at hs ⊢
    have hlt : r2 < h.length := by
      by_contra hge
      rw [List.getElem?_eq_none (Nat.le_of_not_lt hge)] at hs
      simp at hs
    exact List.getElem?_append_left hlt

/-- SetPayload as the first read of an open DictStatus with the default combiner and live
leaf children: SetPayload(uri, data) returns, sets uri to data on the
combined base and leaves the children mapping as it was; every child that is not the
combined base is untouched (same record, same GetPayload for every key); and when all
children are Ok the base is a new status and no child is touched at all. -/
theorem DictStatus.SetPayload_open_default (m order : GoMap Status) (h : Heap)
    (log : List (GoMap Status)) (uri data : String)
    (hperm : order.Perm m) (hlive : ChildrenLive h m) :
    (DictStatus.SetPayload order uri data (openWorld m DefaultCombiner h log)).1 = some () ∧
    Status.GetPayload
      (DictStatus.SetPayload order uri data (openWorld m DefaultCombiner h log)).2.heap
      (DictStatus.SetPayload order uri data (openWorld m DefaultCombiner h log)).2.d.base uri
      = some data ∧
    (DictStatus.SetPayload order uri data (openWorld m DefaultCombiner h log)).2.d.children
      = m ∧
    (∀ e ∈ m,
      e.2 ≠ (DictStatus.SetPayload order uri data
              (openWorld m DefaultCombiner h log)).2.d.base →
      (DictStatus.SetPayload order uri data (openWorld m DefaultCombiner h log)).2.heap.deref
          e.2 = h.deref e.2 ∧
      ∀ key, Status.GetPayload
          (DictStatus.SetPayload order uri data (openWorld m DefaultCombiner h log)).2.heap
          e.2 key = Status.GetPayload h e.2 key) ∧
    ((∀ e ∈ m, Status.Code h e.2 = some Ok) →
      ∀ e ∈ m, ∀ key, Status.GetPayload
          (DictStatus.SetPayload order uri data (openWorld m DefaultCombiner h log)).2.heap
          e.2 key = Status.GetPayload h e.2 key) := by
  have hlive2 : ChildrenLive h order := fun e he => hlive e (hperm.subset he)
  rcases DefaultCombiner.Combine_cases h order hlive2 with ⟨k, c, hmem, hcomb⟩ | ⟨hok, hcomb⟩
  · obtain ⟨o, ho⟩ := Option.isSome_iff_exists.mp (hlive2 (k, c) hmem)
    cases c with
    | nil => simp [Heap.deref] at ho
    | ptr r =>
      simp only [Heap.deref] at ho
      have hlt : r < h.length := by
        by_contra hge
        rw [List.getElem?_eq_none (Nat.le_of_not_lt hge)] at ho
        simp at ho
      have hS : DictStatus.SetPayload order uri data (openWorld m DefaultCombiner h log)
          = (some (), { d := { base := Status.ptr r, children := m,
                               combiner := DefaultCombiner },
                        heap := h.store r (o.SetPayload uri data),
                        combines := log ++ [order] }) := by
        simp [DictStatus.SetPayload, DictStatus.ensureCombined, openWorld, DefaultCombiner,
          hcomb, Status.SetPayload, ho]
      rw [hS]
      have hunt : ∀ e ∈ m, e.2 ≠ Status.ptr r →
          (h.store r (o.SetPayload uri data)).deref e.2 = h.deref e.2 :=
        fun e _ hne => Heap.deref_store_ne h r _ e.2 hne
      refine ⟨rfl, ?_, rfl, ?_, ?_⟩
      · simp [Status.GetPayload, Heap.deref, Heap.store, hlt, status.GetPayload,
          status.SetPayload, GoMap.index_assign]
      · intro e he hne
        exact ⟨hunt e he hne, fun key => by simp only [Status.GetPayload, hunt e he hne]⟩
      · intro hallok
        have hnot : DefaultCombiner.Combine order h
            = (some (Status.ptr h.length), h ++ [mkStatus InfoLevel Ok ""]) :=
          DefaultCombiner.Combine_all_ok h order (fun e he => hallok e (hperm.subset he))
        rw [hcomb] at hnot
        have hlen := congrArg (fun p => p.2.length) hnot
        simp at hlen
  · have hS : DictStatus.SetPayload order uri data (openWorld m DefaultCombiner h log)
        = (some (), { d := { base := Status.ptr h.length, children := m,
                             combiner := DefaultCombiner },
                      heap := (h ++ [mkStatus InfoLevel Ok ""]).store h.length
                        ((mkStatus InfoLevel Ok "").SetPayload uri data),
                      combines := log ++ [order] }) := by
      simp [DictStatus.SetPayload, DictStatus.ensureCombined, openWorld, DefaultCombiner,
        hcomb, Status.SetPayload]
    rw [hS]
    have hunt : ∀ e ∈ m,
        ((h ++ [mkStatus InfoLevel Ok ""]).store h.length
          ((mkStatus InfoLevel Ok "").SetPayload uri data)).deref e.2 = h.deref e.2 := by
      intro e he
      have hl := hlive e he
      have hne : e.2 ≠ Status.ptr h.length := by
        intro hc
        rw [hc] at hl
        simp [Heap.deref] at hl
      rw [Heap.deref_store_ne _ _ _ _ hne]
      exact Heap.deref_append_live h _ e.2 hl
    refine ⟨rfl, ?_, rfl, ?_, ?_⟩
    · simp [Status.GetPayload, Heap.deref, Heap.store, status.GetPayload,
        status.SetPayload, GoMap.index_assign]
    · intro e he _
      exact ⟨hunt e he, fun key => by simp only [Status.GetPayload, hunt e he]⟩
    · intro _ e he key
      simp only [Status.GetPayload, hunt e he]

/-- C6 (amended): for every DictStatus with the default combiner and live leaf children, open
or already combined, every iteration order, key and value, SetPayload(uri, data) returns,
sets uri to data on the combined base and leaves the children mapping as it was; every child
that is not the combined base is untouched (same record, same GetPayload for every key); and
on an open DictStatus whose children are all Ok the base is a new status and no child is
touched at all. -/
theorem C6_set_payload_touches_only_base (w : World Unit) (order : GoMap Status)
    (uri data : String) (hcomb : w.d.combiner = DefaultCombiner)
    (hperm : order.Perm w.d.children) (hlive : ChildrenLive w.heap w.d.children)
    (hbase : w.d.base = Status.nil ∨ (w.heap.deref w.d.base).isSome = true) :
    (DictStatus.SetPayload order uri data w).1 = some () ∧
    Status.GetPayload (DictStatus.SetPayload order uri data w).2.heap
      (DictStatus.SetPayload order uri data w).2.d.base uri = some data ∧
    (DictStatus.SetPayload order uri data w).2.d.children = w.d.children ∧
    (∀ e ∈ w.d.children, e.2 ≠ (DictStatus.SetPayload order uri data w).2.d.base →
      (DictStatus.SetPayload order uri data w).2.heap.deref e.2 = w.heap.deref e.2 ∧
      ∀ key, Status.GetPayload (DictStatus.SetPayload order uri data w).2.heap e.2 key
        = Status.GetPayload w.heap e.2 key) ∧
    (w.d.base = Status.nil → (∀ e ∈ w.d.children, Status.Code w.heap e.2 = some Ok) →
      ∀ e ∈ w.d.children, ∀ key,
        Status.GetPayload (DictStatus.SetPayload order uri data w).2.heap e.2 key
          = Status.GetPayload w.heap e.2 key) := by
  by_cases hb : w.d.base = Status.nil
  · have hw : w = openWorld w.d.children DefaultCombiner w.heap w.combines := by
      obtain ⟨⟨b, ch, cb⟩, hp, lg⟩ := w
      simp only at hb hcomb
      subst hb hcomb
      rfl
    have key := DictStatus.SetPayload_open_default w.d.children order w.heap w.combines
      uri data hperm hlive
    rw [← hw] at key
    exact ⟨key.1, key.2.1, key.2.2.1, key.2.2.2.1, fun _ => key.2.2.2.2⟩
  · have hsome : (w.heap.deref w.d.base).isSome = true := hbase.resolve_left hb
    obtain ⟨o, ho⟩ := Option.isSome_iff_exists.mp hsome
    cases hbr : w.d.base with
    | nil => exact absurd hbr hb
    | ptr r =>
      rw [hbr] at ho
      simp only [Heap.deref] at ho
      have hlt : r < w.heap.length := by
        by_contra hge
        rw [List.getElem?_eq_none (Nat.le_of_not_lt hge)] at ho
        simp at ho
      have hS : DictStatus.SetPayload order uri data w
          = (some (), { d := w.d, heap := w.heap.store r (o.SetPayload uri data),
                        combines := w.combines }) := by
        simp [DictStatus.SetPayload, DictStatus.ensureCombined, hbr, Status.SetPayload, ho]
      rw [hS]
      have hunt : ∀ e ∈ w.d.children, e.2 ≠ Status.ptr r →
          (w.heap.store r (o.SetPayload uri data)).deref e.2 = w.heap.deref e.2 :=
        fun e _ hne => Heap.deref_store_ne w.heap r _ e.2 hne
      refine ⟨rfl, ?_, rfl, ?_, fun hnil => absurd hnil (by simp)⟩
      · simp [hbr, Status.GetPayload, Heap.deref, Heap.store, hlt, status.GetPayload,
          status.SetPayload, GoMap.index_assign]
      · intro e he hne
        simp only [hbr] at hne
        exact ⟨hunt e he hne, fun key => by simp only [Status.GetPayload, hunt e he hne]⟩

/-- C6 (amended) at the children a = Info(Ok, "") and b = Error(Internal, "boom"): after
`SetPayload("k", "v")` the base has k = v and the child a, which is not the base, is
untouched. -/
theorem C6_set_payload_touches_only_base_witness :
    (DictStatus.SetPayload [("a", abA), ("b", abB)] "k" "v" abWorld).1 = some () ∧
    Status.GetPayload (DictStatus.SetPayload [("a", abA), ("b", abB)] "k" "v" abWorld).2.heap
      (DictStatus.SetPayload [("a", abA), ("b", abB)] "k" "v" abWorld).2.d.base "k"
      = some "v" ∧
    (∀ key, Status.GetPayload
      (DictStatus.SetPayload [("a", abA), ("b", abB)] "k" "v" abWorld).2.heap abA key
      = Status.GetPayload abWorld.heap abA key) :=
  ⟨(C6_set_payload_touches_only_base abWorld [("a", abA), ("b", abB)] "k" "v" rfl
      (List.Perm.refl _) (by decide) (Or.inl rfl)).1,
   (C6_set_payload_touches_only_base abWorld [("a", abA), ("b", abB)] "k" "v" rfl
      (List.Perm.refl _) (by decide) (Or.inl rfl)).2.1,
   ((C6_set_payload_touches_only_base abWorld [("a", abA), ("b", abB)] "k" "v" rfl
      (List.Perm.refl _) (by decide) (Or.inl rfl)).2.2.2.1 ("a", abA) (by decide)
      (by decide)).2⟩

/-- C6 as stated fails: with children a = Info(Ok, "") and b = Error(Internal, "boom") the
default combiner makes the child b itself the base, so `SetPayload("k", "v")` on the
DictStatus changes what `b.GetPayload("k")` returns from "" to "v". -/
theorem C6_set_payload_touches_child_counterexample :
    Status.GetPayload abWorld.heap abB "k" = some "" ∧
    Status.GetPayload
      (DictStatus.SetPayload [("a", abA), ("b", abB)] "k" "v" abWorld).2.heap abB "k"
      = some "v" ∧
    ¬ (∀ e ∈ abWorld.d.children, ∀ key,
        Status.GetPayload
          (DictStatus.SetPayload [("a", abA), ("b", abB)] "k" "v" abWorld).2.heap e.2 key
        = Status.GetPayload abWorld.heap e.2 key) :=
  ⟨by decide, by decide, fun hall => absurd (hall ("b", abB) (by decide) "k") (by decide)⟩

/-- C7: dict.go declares no method Ok on `*DictStatus`: Ok is in the method set of the
interface Status and in that of the leaf `*status`, and not among the methods of
`*DictStatus`, which therefore does not have the method set of Status; every other method of
the interface is declared. -/
theorem C7_dict_status_has_no_ok_method :
    "Ok" ∈ Status.methodSet ∧ "Ok" ∈ status.methodSet ∧ "Ok" ∉ DictStatus.methodSet ∧
    (∀ name ∈ Status.methodSet, name ∈ status.methodSet) ∧
    ¬ (∀ name ∈ Status.methodSet, name ∈ DictStatus.methodSet) ∧
    (∀ name ∈ Status.methodSet, name ≠ "Ok" → name ∈ DictStatus.methodSet) := by
  decide

/-- On combined DictStatuses with the same base over the same heap, an accessor call gives
the same result and leaves the same heap, whatever the combiners are. -/
theorem DictStatus.call_closed_congr {σ τ : Type} (c : Call) (w1 : World σ) (w2 : World τ)
    (hb : w1.d.base ≠ Status.nil) (hbase : w2.d.base = w1.d.base) (hheap : w2.heap = w1.heap) :
    (DictStatus.call c w2).1 = (DictStatus.call c w1).1 ∧
    (DictStatus.call c w2).2.heap = (DictStatus.call c w1).2.heap := by
  have hb2 : w2.d.base ≠ Status.nil := by rw [hbase]; exact hb
  cases c <;>
    simp only [DictStatus.call, DictStatus.Code, DictStatus.Level, DictStatus.Message,
      DictStatus.Frame, DictStatus.GetPayload, DictStatus.SetPayload, DictStatus.Capture,
      DictStatus.ensureCombined_closed _ w1 hb, DictStatus.ensureCombined_closed _ w2 hb2,
      hbase, hheap, and_self]
  rename_i o loop rt
  rcases hC : Status.Capture (rt 0) w1.heap w1.d.base with ⟨_ | u, h1⟩ <;> simp only [and_self]

/-- On combined DictStatuses with the same base over the same heap, a run gives the same
results and leaves the same heap, whatever the combiners are. -/
theorem DictStatus.run_closed_congr {σ τ : Type} (cs : List Call) (w1 : World σ)
    (w2 : World τ) (hb : w1.d.base ≠ Status.nil) (hbase : w2.d.base = w1.d.base)
    (hheap : w2.heap = w1.heap) :
    (DictStatus.run cs w2).1 = (DictStatus.run cs w1).1 ∧
    (DictStatus.run cs w2).2.heap = (DictStatus.run cs w1).2.heap := by
  induction cs generalizing w1 w2 with
  | nil => simp [DictStatus.run, hheap]
  | cons c rest ih =>
    have hb2 : w2.d.base ≠ Status.nil := by rw [hbase]; exact hb
    have hc := DictStatus.call_closed_congr c w1 w2 hb hbase hheap
    have hf1 := (DictStatus.call_frame c w1).2
    have hf2 := (DictStatus.call_frame c w2).2
    rw [DictStatus.ensureCombined_closed _ w1 hb] at hf1
    rw [DictStatus.ensureCombined_closed _ w2 hb2] at hf2
    simp only [DictStatus.run]
    rcases hC1 : DictStatus.call c w1 with ⟨_ | v1, u1⟩ <;>
      rcases hC2 : DictStatus.call c w2 with ⟨_ | v2, u2⟩ <;>
      rw [hC1, hC2] at hc <;> simp only [reduceCtorEq, false_and] at hc <;> dsimp only
    · exact ⟨rfl, hc.2⟩
    · rw [hC1] at hf1
      rw [hC2] at hf2
      simp only at hf1 hf2
      have hb1 : u1.d.base ≠ Status.nil := by rw [hf1]; exact hb
      have hbase1 : u2.d.base = u1.d.base := by rw [hf1, hf2]; exact hbase
      have ih1 := ih u1 u2 hb1 hbase1 hc.2
      simp only [Option.some.injEq] at hc
      simp only [ih1.1, ih1.2, hc.1, and_self]

/-- C8: on every DictStatus that is already combined, for every combiner c, SetCombiner(c)
changes nothing that is read: Code(), Level(), Message(), Frame() and GetPayload(k) return
what they returned without the call, every later sequence of accessor calls gives the same
results and the same heap, no combiner is invoked by it, and c is left in its initial
state. -/
theorem C8_set_combiner_after_combination {σ τ : Type} (w : World σ) (c : DictCombiner τ)
    (hb : w.d.base ≠ Status.nil) :
    (∀ o, (DictStatus.Code o (DictStatus.SetCombiner c w)).1 = (DictStatus.Code o w).1) ∧
    (∀ o, (DictStatus.Level o (DictStatus.SetCombiner c w)).1 = (DictStatus.Level o w).1) ∧
    (∀ o, (DictStatus.Message o (DictStatus.SetCombiner c w)).1
      = (DictStatus.Message o w).1) ∧
    (∀ o, (DictStatus.Frame o (DictStatus.SetCombiner c w)).1 = (DictStatus.Frame o w).1) ∧
    (∀ o k, (DictStatus.GetPayload o k (DictStatus.SetCombiner c w)).1
      = (DictStatus.GetPayload o k w).1) ∧
    (∀ cs, (DictStatus.run cs (DictStatus.SetCombiner c w)).1 = (DictStatus.run cs w).1 ∧
      (DictStatus.run cs (DictStatus.SetCombiner c w)).2.heap = (DictStatus.run cs w).2.heap ∧
      (DictStatus.run cs (DictStatus.SetCombiner c w)).2.combines = w.combines ∧
      (DictStatus.run cs (DictStatus.SetCombiner c w)).2.d.combiner.state = c.state) := by
  have hb2 : (DictStatus.SetCombiner c w).d.base ≠ Status.nil := hb
  refine ⟨?_, ?_, ?_, ?_, ?_, ?_⟩
  · intro o
    simp only [DictStatus.Code, DictStatus.ensureCombined_closed _ w hb,
      DictStatus.ensureCombined_closed _ _ hb2]
    rfl
  · intro o
    simp only [DictStatus.Level, DictStatus.ensureCombined_closed _ w hb,
      DictStatus.ensureCombined_closed _ _ hb2]
    rfl
  · intro o
    simp only [DictStatus.Message, DictStatus.ensureCombined_closed _ w hb,
      DictStatus.ensureCombined_closed _ _ hb2]
    rfl
  · intro o
    simp only [DictStatus.Frame, DictStatus.ensureCombined_closed _ w hb,
      DictStatus.ensureCombined_closed _ _ hb2]
    rfl
  · intro o k
    simp only [DictStatus.GetPayload, DictStatus.ensureCombined_closed _ w hb,
      DictStatus.ensureCombined_closed _ _ hb2]
    rfl
  · intro cs
    have hcg := DictStatus.run_closed_congr cs w (DictStatus.SetCombiner c w) hb rfl rfl
    have hcl := DictStatus.run_closed cs (DictStatus.SetCombiner c w) hb2
    refine ⟨hcg.1, hcg.2, hcl.1, ?_⟩
    rw [hcl.2]
    rfl

/-- C8 at the combined DictStatus with children a and b and base b: after SetCombiner with the
counting stub, Code() and Message() are still Internal and "boom" and the stub has counted
nothing. -/
theorem C8_set_combiner_after_combination_witness :
    (∀ o, (DictStatus.Code o (DictStatus.SetCombiner countingCombiner abCombined)).1
      = (DictStatus.Code o abCombined).1) ∧
    (DictStatus.run [Call.Code [], Call.Message []]
      (DictStatus.SetCombiner countingCombiner abCombined)).1
      = some [Value.code Internal, Value.message "boom"] ∧
    (DictStatus.run [Call.Code [], Call.Message []]
      (DictStatus.SetCombiner countingCombiner abCombined)).2.d.combiner.state = 0 :=
  ⟨(C8_set_combiner_after_combination abCombined countingCombiner (by decide)).1,
   by decide, by decide⟩

/-- With a visitor that always returns true the loop of status.WalkPayload calls it on every
entry the range yields, in that order. -/
theorem walkLoop_always_true {τ : Type} (fn : Visitor τ) (htrue : ∀ s k v, (fn s k v).1 = true)
    (order : List (String × String)) (t : τ) : (walkLoop fn order t).2 = order := by
  induction order generalizing t with
  | nil => rfl
  | cons e rest ih =>
    obtain ⟨k, v⟩ := e
    simp [walkLoop, htrue, ih]

/-- With a visitor that always returns true the loop over live children returns and visits
what the payload ranges of the children yield. -/
theorem walkChildren_always_true {τ : Type} (fn : Visitor τ)
    (htrue : ∀ s k v, (fn s k v).1 = true) (h : Heap)
    (loop : List (String × Status × List (String × String)))
    (hlive : ∀ e ∈ loop, (h.deref e.2.1).isSome = true) (t : τ) :
    (walkChildren fn h loop t).1 = some () ∧
    ∀ kv, kv ∈ (walkChildren fn h loop t).2.2 ↔ ∃ e ∈ loop, kv ∈ e.2.2 := by
  induction loop generalizing t with
  | nil => simp [walkChildren]
  | cons e rest ih =>
    obtain ⟨k, s, order⟩ := e
    obtain ⟨o, ho⟩ := Option.isSome_iff_exists.mp (hlive (k, s, order) (by simp))
    have ih1 := ih (fun e he => hlive e (by simp [he])) (walkLoop fn order t).1
    simp only [walkChildren, Status.WalkPayload, status.WalkPayload, ho,
      walkLoop_always_true fn htrue]
    refine ⟨ih1.1, ?_⟩
    intro kv
    simp only [List.mem_append, ih1.2 kv, List.mem_cons, exists_eq_or_imp]

/-- After `m[k] = v` a lookup of `k` finds `v`. -/
theorem GoMap.lookup_assign {α : Type} (m : GoMap α) (k : String) (v : α) :
    List.lookup k (GoMap.assign m k v) = some v := by
  induction m with
  | nil => simp [GoMap.assign, List.lookup]
  | cons e rest ih =>
    obtain ⟨k1, v1⟩ := e
    by_cases hk : k1 = k
    · simp [GoMap.assign, List.lookup, hk]
    · have hk2 : (k == k1) = false := by
        simp only [beq_eq_false_iff_ne, ne_eq]
        exact fun hc => hk hc.symm
      simp [GoMap.assign, List.lookup, hk, hk2, ih]

/-- The assignment `m[k] = v` does not change what a lookup of another key finds. -/
theorem GoMap.lookup_assign_ne {α : Type} (m : GoMap α) (k k2 : String) (v : α)
    (hne : k2 ≠ k) : List.lookup k2 (GoMap.assign m k v) = List.lookup k2 m := by
  induction m with
  | nil =>
    have hk2 : (k2 == k) = false := by simpa using hne
    simp [GoMap.assign, List.lookup, hk2]
  | cons e rest ih =>
    obtain ⟨k1, v1⟩ := e
    by_cases hk : k1 = k
    · subst hk
      have hk2 : (k2 == k1) = false := by simpa using hne
      simp [GoMap.assign, List.lookup, hk2]
    · by_cases hk3 : (k2 == k1) = true
      · simp [GoMap.assign, List.lookup, hk, hk3]
      · have hk4 : (k2 == k1) = false := by simpa using hk3
        simp [GoMap.assign, List.lookup, hk, hk4, ih]

/-- The entries under other keys are the same before and after `m[k] = v`. -/
theorem GoMap.mem_assign_ne {α : Type} (m : GoMap α) (k : String) (v : α)
    (e : String × α) (hne : e.1 ≠ k) : e ∈ GoMap.assign m k v ↔ e ∈ m := by
  induction m with
  | nil =>
    simp only [GoMap.assign, List.mem_singleton, List.not_mem_nil, iff_false]
    intro hc
    exact hne (by rw [hc])
  | cons e1 rest ih =>
    obtain ⟨k1, v1⟩ := e1
    by_cases hk : k1 = k
    · subst hk
      simp only [GoMap.assign, if_true, List.mem_cons]
      constructor
      · rintro (hc | hc)
        · exact absurd (by rw [hc]) hne
        · exact Or.inr hc
      · rintro (hc | hc)
        · exact absurd (by rw [hc]) hne
        · exact Or.inr hc
    · simp only [GoMap.assign, hk, if_false, List.mem_cons, ih]

/-- The keys after `m[k] = v`: those of m, and k. -/
theorem GoMap.keys_assign {α : Type} (m : GoMap α) (k : String) (v : α) (k2 : String) :
    k2 ∈ (GoMap.assign m k v).map Prod.fst ↔ k2 = k ∨ k2 ∈ m.map Prod.fst := by
  induction m with
  | nil => simp [GoMap.assign]
  | cons e rest ih =>
    obtain ⟨k1, v1⟩ := e
    by_cases hk : k1 = k
    · subst hk
      simp [GoMap.assign]
    · simp only [GoMap.assign, hk, if_false, List.map_cons, List.mem_cons, ih]
      tauto

/-- The assignment `m[k] = v` keeps the keys pairwise distinct. -/
theorem GoMap.nodup_assign {α : Type} (m : GoMap α) (k : String) (v : α)
    (hnd : (m.map Prod.fst).Nodup) : ((GoMap.assign m k v).map Prod.fst).Nodup := by
  induction m with
  | nil => simp [GoMap.assign]
  | cons e rest ih =>
    obtain ⟨k1, v1⟩ := e
    simp only [List.map_cons, List.nodup_cons] at hnd
    by_cases hk : k1 = k
    · subst hk
      simp only [GoMap.assign, if_true, List.map_cons, List.nodup_cons]
      exact hnd
    · simp only [GoMap.assign, hk, if_false, List.map_cons, List.nodup_cons]
      refine ⟨?_, ih hnd.2⟩
      intro hin
      rcases (GoMap.keys_assign rest k v k1).mp hin with hc | hc
      · exact hk hc
      · exact hnd.1 hc

/-- C11: on every open DictStatus, for every key and status, AddChild returns (the receiver),
the children mapping then has the status under the key, the entries under every other key
are exactly those it had, keys stay pairwise distinct (a prior entry under the key is
overwritten, not doubled), and the DictStatus is still open: base nil, combiner and its state
as before, no invocation of the combiner, heap untouched. -/
theorem C11_add_child_on_open {σ : Type} (w : World σ) (key : String) (s : Status)
    (hb : w.d.base = Status.nil) :
    (DictStatus.AddChild key s w).1 = some () ∧
    List.lookup key (DictStatus.AddChild key s w).2.d.children = some s ∧
    (∀ k2, k2 ≠ key → List.lookup k2 (DictStatus.AddChild key s w).2.d.children
      = List.lookup k2 w.d.children) ∧
    (∀ e : String × Status, e.1 ≠ key →
      (e ∈ (DictStatus.AddChild key s w).2.d.children ↔ e ∈ w.d.children)) ∧
    ((w.d.children.map Prod.fst).Nodup →
      ((DictStatus.AddChild key s w).2.d.children.map Prod.fst).Nodup) ∧
    (DictStatus.AddChild key s w).2.d.base = Status.nil ∧
    (DictStatus.AddChild key s w).2.d.combiner.state = w.d.combiner.state ∧
    (DictStatus.AddChild key s w).2.combines = w.combines ∧
    (DictStatus.AddChild key s w).2.heap = w.heap := by
  have hA : DictStatus.AddChild key s w
      = (some (), { d := { base := w.d.base, children := GoMap.assign w.d.children key s,
                           combiner := w.d.combiner },
                    heap := w.heap, combines := w.combines }) := by
    simp [DictStatus.AddChild, hb]
  rw [hA]
  exact ⟨rfl, GoMap.lookup_assign _ _ _, fun k2 hk2 => GoMap.lookup_assign_ne _ _ _ _ hk2,
    fun e he => GoMap.mem_assign_ne _ _ _ e he, GoMap.nodup_assign _ _ _, hb, rfl, rfl, rfl⟩

/-- C11 at the open DictStatus with children a and b: `AddChild("a", b)` overwrites the entry
under "a", leaves the one under "b", and the DictStatus is still open. -/
theorem C11_add_child_on_open_witness :
    ((DictStatus.AddChild "a" abB abWorld).1 = some () ∧
     List.lookup "a" (DictStatus.AddChild "a" abB abWorld).2.d.children = some abB ∧
     (∀ k2, k2 ≠ "a" → List.lookup k2 (DictStatus.AddChild "a" abB abWorld).2.d.children
       = List.lookup k2 abWorld.d.children) ∧
     (∀ e : String × Status, e.1 ≠ "a" →
       (e ∈ (DictStatus.AddChild "a" abB abWorld).2.d.children ↔ e ∈ abWorld.d.children)) ∧
     ((abWorld.d.children.map Prod.fst).Nodup →
       ((DictStatus.AddChild "a" abB abWorld).2.d.children.map Prod.fst).Nodup) ∧
     (DictStatus.AddChild "a" abB abWorld).2.d.base = Status.nil ∧
     (DictStatus.AddChild "a" abB abWorld).2.d.combiner.state = abWorld.d.combiner.state ∧
     (DictStatus.AddChild "a" abB abWorld).2.combines = abWorld.combines ∧
     (DictStatus.AddChild "a" abB abWorld).2.heap = abWorld.heap) ∧
    (DictStatus.AddChild "a" abB abWorld).2.d.children = [("a", abB), ("b", abB)] ∧
    abWorld.d.children = [("a", abA), ("b", abB)] :=
  ⟨C11_add_child_on_open abWorld "a" abB rfl, by decide, by decide⟩

/-- C12: with one child c whose payload has y = 2 and no value for y on the base,
`GetPayload("y")` on the DictStatus returns "" although `c.GetPayload("y")` is "2": only
the base is read, on the first read and on every later one. -/
theorem C12_get_payload_reads_only_base :
    Status.GetPayload xyOpen.heap xyChild "y" = some "2" ∧
    (DictStatus.GetPayload [("c", xyChild)] "y" xyOpen).1 = some "" ∧
    Status.GetPayload xyWorld.heap xyChild "y" = some "2" ∧
    ((xyWorld.heap.deref xyWorld.d.base).map (fun o => List.lookup "y" o.payload))
      = some none ∧
    (DictStatus.GetPayload [("c", xyChild)] "y" xyWorld).1 = some "" := by
  decide

/-- The assignment `m[k] = v` does not change the index expression at another key. -/
theorem GoMap.index_assign_ne (m : GoMap String) (k k2 v : String) (hne : k2 ≠ k) :
    GoMap.index (GoMap.assign m k v) k2 = GoMap.index m k2 := by
  simp only [GoMap.index, GoMap.lookup_assign_ne m k k2 v hne]

/-- A store through a live pointer is read back through it. -/
theorem Heap.deref_store_self (h : Heap) (r : Ref) (o o2 : status)
    (hr : h.deref (Status.ptr r) = some o) :
    (h.store r o2).deref (Status.ptr r) = some o2 := by
  simp only [Heap.deref] at hr
  have hlt : r < h.length := by
    by_contra hge
    rw [List.getElem?_eq_none (Nat.le_of_not_lt hge)] at hr
    simp at hr
  simp [Heap.deref, Heap.store, hlt]

/-- C13: for every leaf status s (a live pointer), every key k, empty or not, and values v
and v2: `s.SetPayload(k, v)` returns s itself; afterwards `s.GetPayload(k)` is v and
`s.GetPayload(k2)` is what it was for every other key k2; a second `SetPayload(k, v2)`
returns s again and makes `GetPayload(k)` v2. Code, level, message and frames of s and every
other status are untouched. -/
theorem C13_leaf_set_payload_get_payload (h : Heap) (s : Status) (o : status)
    (k v v2 : String) (hs : h.deref s = some o) :
    (Status.SetPayload h s k v).1 = some s ∧
    Status.GetPayload (Status.SetPayload h s k v).2 s k = some v ∧
    (∀ k2, k2 ≠ k → Status.GetPayload (Status.SetPayload h s k v).2 s k2
      = Status.GetPayload h s k2) ∧
    (Status.SetPayload (Status.SetPayload h s k v).2 s k v2).1 = some s ∧
    Status.GetPayload (Status.SetPayload (Status.SetPayload h s k v).2 s k v2).2 s k
      = some v2 ∧
    (Status.SetPayload h s k v).2.deref s
      = some { o with payload := GoMap.assign o.payload k v } ∧
    (∀ p, p ≠ s → (Status.SetPayload h s k v).2.deref p = h.deref p) := by
  cases s with
  | nil => simp [Heap.deref] at hs
  | ptr r =>
    have hr : h[r]? = some o := hs
    have hS : Status.SetPayload h (Status.ptr r) k v
        = (some (Status.ptr r), h.store r (o.SetPayload k v)) := by
      simp [Status.SetPayload, hr]
    have hd : (h.store r (o.SetPayload k v)).deref (Status.ptr r) = some (o.SetPayload k v) :=
      Heap.deref_store_self h r o _ hs
    have hr2 : (h.store r (o.SetPayload k v))[r]? = some (o.SetPayload k v) := hd
    have hS2 : Status.SetPayload (h.store r (o.SetPayload k v)) (Status.ptr r) k v2
        = (some (Status.ptr r),
           (h.store r (o.SetPayload k v)).store r ((o.SetPayload k v).SetPayload k v2)) := by
      simp [Status.SetPayload, hr2]
    have hd2 := Heap.deref_store_self (h.store r (o.SetPayload k v)) r (o.SetPayload k v)
      ((o.SetPayload k v).SetPayload k v2) hd
    rw [hS, hS2]
    refine ⟨rfl, ?_, ?_, rfl, ?_, hd, ?_⟩
    · simp only [Status.GetPayload, hd, Option.map_some']
      simp [status.GetPayload, status.SetPayload, GoMap.index_assign]
    · intro k2 hk2
      simp only [Status.GetPayload, hd, hs, Option.map_some']
      simp [status.GetPayload, status.SetPayload, GoMap.index_assign_ne _ _ _ _ hk2]
    · simp only [Status.GetPayload, hd2, Option.map_some']
      simp [status.GetPayload, status.SetPayload, GoMap.index_assign]
    · intro p hp
      exact Heap.deref_store_ne h r _ p hp

/-- C13 at `Info(Ok, "")` with the empty key: `SetPayload("", "v")` then `GetPayload("")`
gives "v", and a second `SetPayload("", "w")` gives "w". -/
theorem C13_leaf_set_payload_get_payload_witness :
    ((Status.SetPayload (Info Ok "" []).2 abA "" "v").1 = some abA ∧
     Status.GetPayload (Status.SetPayload (Info Ok "" []).2 abA "" "v").2 abA "" = some "v" ∧
     (∀ k2, k2 ≠ "" → Status.GetPayload (Status.SetPayload (Info Ok "" []).2 abA "" "v").2 abA k2
       = Status.GetPayload (Info Ok "" []).2 abA k2) ∧
     (Status.SetPayload (Status.SetPayload (Info Ok "" []).2 abA "" "v").2 abA "" "w").1
       = some abA ∧
     Status.GetPayload
       (Status.SetPayload (Status.SetPayload (Info Ok "" []).2 abA "" "v").2 abA "" "w").2
       abA "" = some "w" ∧
     (Status.SetPayload (Info Ok "" []).2 abA "" "v").2.deref abA
       = some { mkStatus InfoLevel Ok "" with
                  payload := GoMap.assign (mkStatus InfoLevel Ok "").payload "" "v" } ∧
     (∀ p, p ≠ abA → (Status.SetPayload (Info Ok "" []).2 abA "" "v").2.deref p
       = (Info Ok "" []).2.deref p)) ∧
    Status.GetPayload (Info Ok "" []).2 abA "" = some "" :=
  ⟨C13_leaf_set_payload_get_payload (Info Ok "" []).2 abA (mkStatus InfoLevel Ok "")
      "" "v" "w" (by decide),
   by decide⟩

/-- C14: for every leveled constructor (Debug, Info, Warn, Error, Fatal), code c and message
m, the constructor returns a pointer to a newly allocated leaf status, the statuses allocated
before being untouched, with Code() c, Message() m, Level() the level of the constructor
(Debug, Info, Warn, Error, Fatal in this order), no frames and an empty payload, so that
GetPayload is "" for every key; and `NewOk(m)` is `Info(Ok, m)`. -/
theorem C14_leveled_constructors (k : Leveled) (c : StatusCode) (m : String) (h : Heap) :
    (k.make c m h).1 = Status.ptr h.length ∧
    (∀ p, (h.deref p).isSome = true → (k.make c m h).2.deref p = h.deref p) ∧
    Status.Code (k.make c m h).2 (k.make c m h).1 = some c ∧
    Status.Message (k.make c m h).2 (k.make c m h).1 = some m ∧
    Status.Level (k.make c m h).2 (k.make c m h).1 = some k.level ∧
    Status.Frame (k.make c m h).2 (k.make c m h).1 = some [] ∧
    (∀ key, Status.GetPayload (k.make c m h).2 (k.make c m h).1 key = some "") ∧
    ((k.make c m h).2.deref (k.make c m h).1).map (fun o => o.payload) = some [] ∧
    (Leveled.debug.level = DebugLevel ∧ Leveled.info.level = InfoLevel ∧
      Leveled.warn.level = WarnLevel ∧ Leveled.error.level = ErrorLevel ∧
      Leveled.fatal.level = FatalLevel) ∧
    (Leveled.debug.make = Debug ∧ Leveled.info.make = Info ∧ Leveled.warn.make = Warn ∧
      Leveled.error.make = Error ∧ Leveled.fatal.make = Fatal) ∧
    NewOk m h = Info Ok m h := by
  refine ⟨?_, ?_, ?_, ?_, ?_, ?_, ?_, ?_, ⟨rfl, rfl, rfl, rfl, rfl⟩,
    ⟨rfl, rfl, rfl, rfl, rfl⟩, rfl⟩
  · cases k <;> rfl
  · intro p hp
    cases k <;> exact Heap.deref_append_live h _ p hp
  all_goals
    cases k <;>
      simp [Leveled.make, Leveled.level, Debug, Info, Warn, Error, Fatal, Heap.alloc,
        Heap.deref, Status.Code, Status.Message, Status.Level, Status.Frame,
        Status.GetPayload, status.Code, status.Message, status.Level, status.Frame,
        status.GetPayload, mkStatus, NewStatusImpl, GoMap.index]

/-- A call of SetPayload or Capture on a live leaf status returns the status itself and
stores a record with the same code, level and message. -/
theorem Status.call_live (c : LeafCall) (h : Heap) (r : Ref) (o : status)
    (hr : h.deref (Status.ptr r) = some o) :
    ∃ o2, Status.call c h (Status.ptr r) = (some (Status.ptr r), h.store r o2) ∧
      (h.store r o2).deref (Status.ptr r) = some o2 ∧
      o2.code = o.code ∧ o2.level = o.level ∧ o2.message = o.message := by
  have hr2 : h[r]? = some o := hr
  cases c with
  | SetPayload uri data =>
    exact ⟨o.SetPayload uri data, by simp [Status.call, Status.SetPayload, hr2],
      Heap.deref_store_self h r o _ hr, rfl, rfl, rfl⟩
  | Capture f =>
    exact ⟨o.Capture f, by simp [Status.call, Status.Capture, hr2],
      Heap.deref_store_self h r o _ hr, rfl, rfl, rfl⟩

/-- A chain of SetPayload and Capture calls on a live leaf status returns the status itself
and leaves its code, level and message as they were. -/
theorem Status.run_live (cs : List LeafCall) (h : Heap) (r : Ref) (o : status)
    (hr : h.deref (Status.ptr r) = some o) :
    ∃ o2, (Status.run cs h (Status.ptr r)).1 = some (Status.ptr r) ∧
      (Status.run cs h (Status.ptr r)).2.deref (Status.ptr r) = some o2 ∧
      o2.code = o.code ∧ o2.level = o.level ∧ o2.message = o.message := by
  induction cs generalizing h o with
  | nil => exact ⟨o, rfl, hr, rfl, rfl, rfl⟩
  | cons c rest ih =>
    obtain ⟨o1, hcall, hd1, hc1, hl1, hm1⟩ := Status.call_live c h r o hr
    obtain ⟨o2, hres, hd2, hc2, hl2, hm2⟩ := ih (h.store r o1) o1 hd1
    refine ⟨o2, ?_, ?_, hc2.trans hc1, hl2.trans hl1, hm2.trans hm1⟩
    · simp only [Status.run, hcall]
      exact hres
    · simp only [Status.run, hcall]
      exact hd2

/-- C15: for every leveled constructor, status code c and message m, the status built has
Ok() true exactly when c is Ok (false exactly when it is not); and after every chain of
SetPayload and Capture calls on it, which returns the status itself, Ok() is the same and
Code(), Level() and Message() are still c, the level of the constructor and m. -/
theorem C15_ok_iff_code_ok (k : Leveled) (c : StatusCode) (m : String) (h : Heap)
    (cs : List LeafCall) :
    (Status.Ok (k.make c m h).2 (k.make c m h).1 = some true ↔ c = Ok) ∧
    (Status.Ok (k.make c m h).2 (k.make c m h).1 = some false ↔ c ≠ Ok) ∧
    (Status.run cs (k.make c m h).2 (k.make c m h).1).1 = some (k.make c m h).1 ∧
    (Status.Ok (Status.run cs (k.make c m h).2 (k.make c m h).1).2 (k.make c m h).1
      = some true ↔ c = Ok) ∧
    (Status.Ok (Status.run cs (k.make c m h).2 (k.make c m h).1).2 (k.make c m h).1
      = some false ↔ c ≠ Ok) ∧
    Status.Code (Status.run cs (k.make c m h).2 (k.make c m h).1).2 (k.make c m h).1
      = some c ∧
    Status.Level (Status.run cs (k.make c m h).2 (k.make c m h).1).2 (k.make c m h).1
      = some k.level ∧
    Status.Message (Status.run cs (k.make c m h).2 (k.make c m h).1).2 (k.make c m h).1
      = some m := by
  have hmk : k.make c m h = (Status.ptr h.length, h ++ [mkStatus k.level c m]) := by
    cases k <;> rfl
  have hd : (h ++ [mkStatus k.level c m]).deref (Status.ptr h.length)
      = some (mkStatus k.level c m) := by
    simp [Heap.deref]
  obtain ⟨o2, hres, hd2, hc2, hl2, hm2⟩ :=
    Status.run_live cs (h ++ [mkStatus k.level c m]) h.length (mkStatus k.level c m) hd
  have hc3 : o2.code = c := hc2
  have hl3 : o2.level = k.level := hl2
  have hm3 : o2.message = m := hm2
  rw [hmk]
  refine ⟨?_, ?_, hres, ?_, ?_, ?_, ?_, ?_⟩
  · simp only [Status.Ok, hd, Option.map_some']
    simp [status.Ok, status.Code, mkStatus]
  · simp only [Status.Ok, hd, Option.map_some']
    simp [status.Ok, status.Code, mkStatus]
  · simp only [Status.Ok, hd2, Option.map_some']
    simp [status.Ok, status.Code, hc3]
  · simp only [Status.Ok, hd2, Option.map_some']
    simp [status.Ok, status.Code, hc3]
  · simp only [Status.Code, hd2, Option.map_some']
    simp [status.Code, hc3]
  · simp only [Status.Level, hd2, Option.map_some']
    simp [status.Level, hl3]
  · simp only [Status.Message, hd2, Option.map_some']
    simp [status.Message, hm3]

/-- A chain of Capture calls on a live leaf status returns the status itself and appends the
reported frames, in call order, to its frames; nothing else of the record changes. -/
theorem Status.run_capture (fs : List GoStatus.Frame) (h : Heap) (r : Ref) (o : status)
    (hr : h.deref (Status.ptr r) = some o) :
    (Status.run (fs.map LeafCall.Capture) h (Status.ptr r)).1 = some (Status.ptr r) ∧
    (Status.run (fs.map LeafCall.Capture) h (Status.ptr r)).2.deref (Status.ptr r)
      = some { o with frame := o.frame ++ fs } := by
  induction fs generalizing h o with
  | nil => simpa [Status.run] using hr
  | cons f rest ih =>
    have hr2 : h[r]? = some o := hr
    have hcall : Status.call (LeafCall.Capture f) h (Status.ptr r)
        = (some (Status.ptr r), h.store r (o.Capture f)) := by
      simp [Status.call, Status.Capture, hr2]
    have hd1 := Heap.deref_store_self h r o (o.Capture f) hr
    have ih1 := ih (h.store r (o.Capture f)) (o.Capture f) hd1
    simp only [List.map_cons, Status.run, hcall]
    refine ⟨ih1.1, ?_⟩
    rw [ih1.2]
    simp [status.Capture]

/-- C16: for every leaf status s (a live pointer) and every N, given by the frames
runtime.Caller reports in N calls: one `s.Capture()` returns s itself and makes Frame() the
frames it had followed by the one new frame, so its length grows by exactly one; N calls in
a row return s and make Frame() the frames it had followed by the N new frames in call
order, so its length grows by exactly N. The rest of the record is unchanged. -/
theorem C16_capture_appends_one_frame (h : Heap) (s : Status) (o : status) (f : Frame)
    (fs : List Frame) (hs : h.deref s = some o) :
    (Status.Capture f h s).1 = some s ∧
    Status.Frame (Status.Capture f h s).2 s = some (o.frame ++ [f]) ∧
    (Status.Frame (Status.Capture f h s).2 s).map List.length = some (o.frame.length + 1) ∧
    (Status.run (fs.map LeafCall.Capture) h s).1 = some s ∧
    Status.Frame (Status.run (fs.map LeafCall.Capture) h s).2 s = some (o.frame ++ fs) ∧
    (Status.Frame (Status.run (fs.map LeafCall.Capture) h s).2 s).map List.length
      = some (o.frame.length + fs.length) ∧
    (Status.run (fs.map LeafCall.Capture) h s).2.deref s
      = some { o with frame := o.frame ++ fs } ∧
    Status.Frame h s = some o.frame := by
  cases s with
  | nil => simp [Heap.deref] at hs
  | ptr r =>
    have hr2 : h[r]? = some o := hs
    have hC : Status.Capture f h (Status.ptr r)
        = (some (Status.ptr r), h.store r (o.Capture f)) := by
      simp [Status.Capture, hr2]
    have hd1 := Heap.deref_store_self h r o (o.Capture f) hs
    have hrun := Status.run_capture fs h r o hs
    rw [hC]
    refine ⟨rfl, ?_, ?_, hrun.1, ?_, ?_, hrun.2, ?_⟩
    · simp only [Status.Frame, hd1, Option.map_some']
      rfl
    · simp only [Status.Frame, hd1, Option.map_some']
      simp [status.Frame, status.Capture]
    · simp only [Status.Frame, hrun.2, Option.map_some']
      rfl
    · simp only [Status.Frame, hrun.2, Option.map_some']
      simp [status.Frame]
    · simp only [Status.Frame, hs, Option.map_some']
      rfl

/-- C16 at `Info(Ok, "")`: three calls of Capture leave three frames, in call order. -/
theorem C16_capture_appends_one_frame_witness :
    ((Status.Capture ⟨1, "f.go", 10, true⟩ (Info Ok "" []).2 abA).1 = some abA ∧
     Status.Frame (Status.Capture ⟨1, "f.go", 10, true⟩ (Info Ok "" []).2 abA).2 abA
       = some ((mkStatus InfoLevel Ok "").frame ++ [⟨1, "f.go", 10, true⟩]) ∧
     (Status.Frame (Status.Capture ⟨1, "f.go", 10, true⟩ (Info Ok "" []).2 abA).2 abA).map
       List.length = some ((mkStatus InfoLevel Ok "").frame.length + 1) ∧
     (Status.run (List.map LeafCall.Capture
        [⟨1, "f.go", 10, true⟩, ⟨2, "f.go", 11, true⟩, ⟨3, "f.go", 12, true⟩])
        (Info Ok "" []).2 abA).1 = some abA ∧
     Status.Frame (Status.run (List.map LeafCall.Capture
        [⟨1, "f.go", 10, true⟩, ⟨2, "f.go", 11, true⟩, ⟨3, "f.go", 12, true⟩])
        (Info Ok "" []).2 abA).2 abA
       = some ((mkStatus InfoLevel Ok "").frame
          ++ [⟨1, "f.go", 10, true⟩, ⟨2, "f.go", 11, true⟩, ⟨3, "f.go", 12, true⟩]) ∧
     (Status.Frame (Status.run (List.map LeafCall.Capture
        [⟨1, "f.go", 10, true⟩, ⟨2, "f.go", 11, true⟩, ⟨3, "f.go", 12, true⟩])
        (Info Ok "" []).2 abA).2 abA).map List.length
       = some ((mkStatus InfoLevel Ok "").frame.length
          + [(⟨1, "f.go", 10, true⟩ : Frame), ⟨2, "f.go", 11, true⟩,
             ⟨3, "f.go", 12, true⟩].length) ∧
     (Status.run (List.map LeafCall.Capture
        [⟨1, "f.go", 10, true⟩, ⟨2, "f.go", 11, true⟩, ⟨3, "f.go", 12, true⟩])
        (Info Ok "" []).2 abA).2.deref abA
       = some { mkStatus InfoLevel Ok "" with
                  frame := (mkStatus InfoLevel Ok "").frame
                    ++ [⟨1, "f.go", 10, true⟩, ⟨2, "f.go", 11, true⟩,
                        ⟨3, "f.go", 12, true⟩] } ∧
     Status.Frame (Info Ok "" []).2 abA = some (mkStatus InfoLevel Ok "").frame) ∧
    (Status.Frame (Status.run (List.map LeafCall.Capture
        [⟨1, "f.go", 10, true⟩, ⟨2, "f.go", 11, true⟩, ⟨3, "f.go", 12, true⟩])
        (Info Ok "" []).2 abA).2 abA).map List.length = some 3 :=
  ⟨C16_capture_appends_one_frame (Info Ok "" []).2 abA (mkStatus InfoLevel Ok "")
      ⟨1, "f.go", 10, true⟩
      [⟨1, "f.go", 10, true⟩, ⟨2, "f.go", 11, true⟩, ⟨3, "f.go", 12, true⟩] (by decide),
   by decide⟩

/-- C17: whatever the call site, status.Capture appends the frame of its own line 159 of
status.go, which is what `runtime.Caller(0)` identifies, and not the frame of its immediate
caller (that one is at skip 1): two calls from the call sites main.go:10 and main.go:20
append the same frame, with the same pc and line, and neither frame is the call site. -/
theorem C17_capture_records_its_own_frame (pc : Nat) (file : String) (site : Frame)
    (outer : List Frame) (s : status) :
    (s.CaptureFrom pc file site outer).frame = s.frame ++ [captureFrame pc file] ∧
    runtimeCaller (captureFrame pc file :: site :: outer) 0 = captureFrame pc file ∧
    runtimeCaller (captureFrame pc file :: site :: outer) 1 = site ∧
    (s.CaptureFrom pc file ⟨100, "main.go", 10, true⟩ outer).frame
      = (s.CaptureFrom pc file ⟨200, "main.go", 20, true⟩ outer).frame ∧
    ((s.CaptureFrom pc file ⟨100, "main.go", 10, true⟩ outer).frame.getLast?).map
      (fun f => f.Line) = some 159 ∧
    ((s.CaptureFrom pc file ⟨200, "main.go", 20, true⟩ outer).frame.getLast?).map
      (fun f => f.Line) = some 159 ∧
    (s.CaptureFrom pc file ⟨100, "main.go", 10, true⟩ outer).frame.getLast?
      ≠ some ⟨100, "main.go", 10, true⟩ := by
  refine ⟨rfl, rfl, ?_, rfl, ?_, ?_, ?_⟩ <;>
    simp [status.CaptureFrom, status.Capture, runtimeCaller, captureFrame]

/-- The loop of status.WalkPayload visits a prefix of what the range yields: every call but
the last returned true, and when entries are left over the last call returned false. -/
theorem walkLoop_prefix {τ : Type} (fn : Visitor τ) (order : List (String × String)) (t : τ) :
    ∃ pre rest, order = pre ++ rest ∧ (walkLoop fn order t).2 = pre ∧
      (walkLoop fn order t).1 = visitorState fn t pre ∧
      (∀ p1 e p2, pre = p1 ++ e :: p2 → p2 ≠ [] →
        (fn (visitorState fn t p1) e.1 e.2).1 = true) ∧
      (rest ≠ [] → ∃ p1 e, pre = p1 ++ [e] ∧
        (fn (visitorState fn t p1) e.1 e.2).1 = false) := by
  induction order generalizing t with
  | nil =>
    refine ⟨[], [], rfl, rfl, rfl, ?_, fun hc => absurd rfl hc⟩
    intro p1 e p2 hp
    simp at hp
  | cons kv tail ih =>
    obtain ⟨k, v⟩ := kv
    by_cases hr : (fn t k v).1 = true
    · obtain ⟨pre, rest, hsplit, hvis, hst, hmid, hlast⟩ := ih (fn t k v).2
      refine ⟨(k, v) :: pre, rest, by simp [hsplit], ?_, ?_, ?_, ?_⟩
      · simp [walkLoop, hr, hvis]
      · simp [walkLoop, hr, hst, visitorState]
      · intro p1 e p2 hp hp2
        cases p1 with
        | nil =>
          simp only [List.nil_append, List.cons.injEq] at hp
          rw [← hp.1]
          exact hr
        | cons q p1t =>
          simp only [List.cons_append, List.cons.injEq] at hp
          have := hmid p1t e p2 hp.2 hp2
          rw [← hp.1]
          simpa [visitorState] using this
      · intro hrest
        obtain ⟨p1, e, hpre, hfalse⟩ := hlast hrest
        refine ⟨(k, v) :: p1, e, by simp [hpre], ?_⟩
        simpa [visitorState] using hfalse
    · have hr2 : (fn t k v).1 = false := by simpa using hr
      refine ⟨[(k, v)], tail, rfl, ?_, ?_, ?_, ?_⟩
      · simp [walkLoop, hr2]
      · simp [walkLoop, hr2, visitorState]
      · intro p1 e p2 hp hp2
        have hlen := congrArg List.length hp
        have hp2len : 0 < p2.length := List.length_pos.mpr hp2
        simp only [List.length_singleton, List.length_append, List.length_cons,
          List.length_nil] at hlen
        omega
      · intro _
        exact ⟨[], (k, v), rfl, by simpa [visitorState] using hr2⟩

/-- With a visitor that always returns false the loop of status.WalkPayload calls it on the
first entry the range yields and on nothing else. -/
theorem walkLoop_always_false {τ : Type} (fn : Visitor τ)
    (hfalse : ∀ s k v, (fn s k v).1 = false) (order : List (String × String)) (t : τ) :
    (walkLoop fn order t).2 = order.take 1 := by
  cases order with
  | nil => rfl
  | cons e rest =>
    obtain ⟨k, v⟩ := e
    simp [walkLoop, hfalse]

/-- C18: for every leaf status s, every visitor (a closure with its own state) and every
order in which the range yields the payload entries, WalkPayload calls the visitor on a
prefix of that order, one entry at a time: every call but the last returned true, and when
entries are left unvisited the last call returned false; no entry is visited more often than
it occurs in the payload. With a visitor that always returns true the visited entries are
all entries the range yields, a permutation of the payload; with one that always returns
false they are the first entry alone when the payload is not empty and none when it is. -/
theorem C18_leaf_walk_payload_stops_at_false {τ : Type} (fn : Visitor τ) (t : τ) (s : status)
    (order : List (String × String)) (hperm : order.Perm s.payload) :
    (∃ pre rest, order = pre ++ rest ∧ (s.WalkPayload fn order t).2 = pre ∧
      (s.WalkPayload fn order t).1 = visitorState fn t pre ∧
      (∀ p1 e p2, pre = p1 ++ e :: p2 → p2 ≠ [] →
        (fn (visitorState fn t p1) e.1 e.2).1 = true) ∧
      (rest ≠ [] → ∃ p1 e, pre = p1 ++ [e] ∧
        (fn (visitorState fn t p1) e.1 e.2).1 = false)) ∧
    (∀ e, (s.WalkPayload fn order t).2.count e ≤ s.payload.count e) ∧
    ((∀ u k v, (fn u k v).1 = true) →
      (s.WalkPayload fn order t).2 = order ∧ (s.WalkPayload fn order t).2.Perm s.payload) ∧
    ((∀ u k v, (fn u k v).1 = false) →
      (s.WalkPayload fn order t).2 = order.take 1 ∧
      (s.WalkPayload fn order t).2.length = if s.payload = [] then 0 else 1) := by
  have hpre := walkLoop_prefix fn order t
  refine ⟨hpre, ?_, ?_, ?_⟩
  · intro e
    obtain ⟨pre, rest, hsplit, hvis, _⟩ := hpre
    have hsub : (walkLoop fn order t).2.Sublist order := by
      rw [hvis, hsplit]
      exact List.sublist_append_left pre rest
    have hle : (walkLoop fn order t).2.countP (fun x => x == e) ≤ order.countP (fun x => x == e) :=
      hsub.countP_le _
    have heq : order.countP (fun x => x == e) = s.payload.countP (fun x => x == e) :=
      hperm.countP_eq _
    calc (s.WalkPayload fn order t).2.count e
        = (walkLoop fn order t).2.countP (fun x => x == e) := rfl
      _ ≤ order.countP (fun x => x == e) := hle
      _ = s.payload.countP (fun x => x == e) := heq
      _ = s.payload.count e := rfl
  · intro htrue
    have hall : (s.WalkPayload fn order t).2 = order := walkLoop_always_true fn htrue order t
    exact ⟨hall, by rw [hall]; exact hperm⟩
  · intro hfalse
    have hone : (s.WalkPayload fn order t).2 = order.take 1 :=
      walkLoop_always_false fn hfalse order t
    refine ⟨hone, ?_⟩
    rw [hone]
    have hlen := hperm.length_eq
    cases hp : s.payload with
    | nil =>
      rw [hp] at hlen
      have : order = [] := List.length_eq_zero.mp hlen
      simp [this]
    | cons e rest =>
      rw [hp] at hlen
      cases order with
      | nil => simp at hlen
      | cons e2 rest2 => simp

/-- C18 at a status with the payload x = 1, y = 2, z = 3 ranged over as y, z, x: a visitor
that always returns false sees y alone, one that always returns true sees y, z, x, and one
that returns false on its second call sees y, z. -/
theorem C18_leaf_walk_payload_stops_at_false_witness :
    ((∀ u k v, (countFalse u k v).1 = false) →
      (status.WalkPayload countFalse [("y", "2"), ("z", "3"), ("x", "1")]
        { mkStatus InfoLevel Ok "" with payload := [("x", "1"), ("y", "2"), ("z", "3")] }
        0).2 = List.take 1 [("y", "2"), ("z", "3"), ("x", "1")] ∧
      (status.WalkPayload countFalse [("y", "2"), ("z", "3"), ("x", "1")]
        { mkStatus InfoLevel Ok "" with payload := [("x", "1"), ("y", "2"), ("z", "3")] }
        0).2.length
        = if ({ mkStatus InfoLevel Ok "" with
                  payload := [("x", "1"), ("y", "2"), ("z", "3")] } : status).payload = []
          then 0 else 1) ∧
    (status.WalkPayload countFalse [("y", "2"), ("z", "3"), ("x", "1")]
      { mkStatus InfoLevel Ok "" with payload := [("x", "1"), ("y", "2"), ("z", "3")] }
      0).2 = [("y", "2")] ∧
    (status.WalkPayload countTrue [("y", "2"), ("z", "3"), ("x", "1")]
      { mkStatus InfoLevel Ok "" with payload := [("x", "1"), ("y", "2"), ("z", "3")] }
      0).2 = [("y", "2"), ("z", "3"), ("x", "1")] ∧
    (status.WalkPayload stopAtTwo [("y", "2"), ("z", "3"), ("x", "1")]
      { mkStatus InfoLevel Ok "" with payload := [("x", "1"), ("y", "2"), ("z", "3")] }
      0) = (2, [("y", "2"), ("z", "3")]) ∧
    (status.WalkPayload countFalse [] (mkStatus InfoLevel Ok "") 0).2 = [] :=
  ⟨(C18_leaf_walk_payload_stops_at_false countFalse 0
      { mkStatus InfoLevel Ok "" with payload := [("x", "1"), ("y", "2"), ("z", "3")] }
      [("y", "2"), ("z", "3"), ("x", "1")] (by decide)).2.2.2,
   by decide, by decide, by decide, by decide⟩

/-- A store through a live pointer keeps every pointer as live as it was. -/
theorem Heap.deref_store_isSome (h : Heap) (r : Ref) (o o2 : status)
    (hr : h.deref (Status.ptr r) = some o) (p : Status) :
    ((h.store r o2).deref p).isSome = (h.deref p).isSome := by
  by_cases hp : p = Status.ptr r
  · rw [hp, Heap.deref_store_self h r o o2 hr, hr]
    rfl
  · rw [Heap.deref_store_ne h r o2 p hp]

/-- One Capture on a live leaf status adds one frame to it and none to any other. -/
theorem frameLen_store_capture (h : Heap) (r : Ref) (o : status) (f : Frame)
    (hr : h.deref (Status.ptr r) = some o) (p : Status) :
    frameLen (h.store r (o.Capture f)) p
      = frameLen h p + (if p = Status.ptr r then 1 else 0) := by
  by_cases hp : p = Status.ptr r
  · rw [hp]
    simp [frameLen, Heap.deref_store_self h r o _ hr, hr, status.Capture]
  · simp [frameLen, Heap.deref_store_ne h r _ p hp, hp]

/-- The loop of DictStatus.Capture over live children returns; every status gets one frame
for each time the range yields it, and stays as live as it was. -/
theorem captureLoop_frames (rt : Nat → Frame) (loop : GoMap Status) (i : Nat) (h : Heap)
    (hlive : ChildrenLive h loop) :
    (captureLoop rt i loop h).1 = some () ∧
    (∀ p, frameLen (captureLoop rt i loop h).2 p
      = frameLen h p + (loop.map Prod.snd).count p) ∧
    (∀ p, ((captureLoop rt i loop h).2.deref p).isSome = (h.deref p).isSome) := by
  induction loop generalizing i h with
  | nil => simp [captureLoop]
  | cons e rest ih =>
    obtain ⟨k, s⟩ := e
    obtain ⟨o, ho⟩ := Option.isSome_iff_exists.mp (hlive (k, s) (by simp))
    cases s with
    | nil => simp [Heap.deref] at ho
    | ptr r =>
      have hr2 : h[r]? = some o := ho
      have hC : Status.Capture (rt i) h (Status.ptr r)
          = (some (Status.ptr r), h.store r (o.Capture (rt i))) := by
        simp [Status.Capture, hr2]
      have hsome := Heap.deref_store_isSome h r o (o.Capture (rt i)) ho
      have hlive1 : ChildrenLive (h.store r (o.Capture (rt i))) rest := by
        intro e he
        rw [hsome]
        exact hlive e (by simp [he])
      obtain ⟨ih1, ih2, ih3⟩ := ih (i + 1) (h.store r (o.Capture (rt i))) hlive1
      simp only [captureLoop, hC]
      refine ⟨ih1, ?_, fun p => (ih3 p).trans (hsome p)⟩
      intro p
      rw [ih2 p, frameLen_store_capture h r o (rt i) ho p]
      simp only [List.map_cons, List.count_cons, beq_iff_eq]
      by_cases hp : p = Status.ptr r
      · simp [hp]
        omega
      · have hp2 : ¬ Status.ptr r = p := fun hc => hp hc.symm
        simp [hp, hp2]

/-- Capture on a combined DictStatus with a live base and live children returns and leaves
the DictStatus as it is; every status gets one frame if it is the base and one for each
time the range over the children yields it. -/
theorem DictStatus.Capture_closed {σ : Type} (w : World σ) (order loop : GoMap Status)
    (rt : Nat → GoStatus.Frame) (r : Ref) (o : status) (hb : w.d.base = Status.ptr r)
    (ho : w.heap.deref (Status.ptr r) = some o) (hlive : ChildrenLive w.heap loop) :
    (DictStatus.Capture order loop rt w).1 = some () ∧
    (DictStatus.Capture order loop rt w).2.d = w.d ∧
    (∀ p, frameLen (DictStatus.Capture order loop rt w).2.heap p
      = frameLen w.heap p + (if p = w.d.base then 1 else 0)
        + (loop.map Prod.snd).count p) ∧
    (∀ p, ((DictStatus.Capture order loop rt w).2.heap.deref p).isSome
      = (w.heap.deref p).isSome) := by
  have hne : w.d.base ≠ Status.nil := by simp [hb]
  have hr2 : w.heap[r]? = some o := ho
  have hC : Status.Capture (rt 0) w.heap (Status.ptr r)
      = (some (Status.ptr r), w.heap.store r (o.Capture (rt 0))) := by
    simp [Status.Capture, hr2]
  have hsome := Heap.deref_store_isSome w.heap r o (o.Capture (rt 0)) ho
  have hlive1 : ChildrenLive (w.heap.store r (o.Capture (rt 0))) loop := by
    intro e he
    rw [hsome]
    exact hlive e he
  obtain ⟨l1, l2, l3⟩ := captureLoop_frames rt loop 1 (w.heap.store r (o.Capture (rt 0))) hlive1
  have hcap : DictStatus.Capture order loop rt w
      = ((captureLoop rt 1 loop (w.heap.store r (o.Capture (rt 0)))).1,
         { d := w.d, heap := (captureLoop rt 1 loop (w.heap.store r (o.Capture (rt 0)))).2,
           combines := w.combines }) := by
    simp [DictStatus.Capture, DictStatus.ensureCombined_closed order w hne, hb, hC]
  rw [hcap]
  refine ⟨l1, rfl, ?_, fun p => (l3 p).trans (hsome p)⟩
  intro p
  simp only
  rw [l2 p, frameLen_store_capture w.heap r o (rt 0) ho p, hb]

/-- A method that starts with ensureCombined behaves on an open DictStatus as on the
DictStatus ensureCombined leaves, here for Capture. -/
theorem DictStatus.Capture_after_ensure {σ : Type} (w w1 : World σ)
    (order loop : GoMap Status) (rt : Nat → GoStatus.Frame)
    (he : DictStatus.ensureCombined order w = (some (), w1))
    (hb : w1.d.base ≠ Status.nil) :
    DictStatus.Capture order loop rt w = DictStatus.Capture order loop rt w1 := by
  simp only [DictStatus.Capture, he, DictStatus.ensureCombined_closed order w1 hb]

/-- An allocation adds no frame to any status that was there, and the new status of a leveled
constructor has none. -/
theorem frameLen_append_new (h : Heap) (lvl : Level) (c : StatusCode) (m : String)
    (p : Status) : frameLen (h ++ [mkStatus lvl c m]) p = frameLen h p := by
  by_cases hp : (h.deref p).isSome = true
  · simp only [frameLen, Heap.deref_append_live h _ p hp]
  · cases p with
    | nil => rfl
    | ptr r2 =>
      have hnone : h[r2]? = none := by
        cases hq : h[r2]? with
        | none => rfl
        | some q => simp [Heap.deref, hq] at hp
      have hge : h.length ≤ r2 := by
        by_contra hlt
        rw [List.getElem?_eq_getElem (Nat.lt_of_not_le hlt)] at hnone
        simp at hnone
      simp only [frameLen, Heap.deref, hnone, List.getElem?_append_right hge]
      cases r2 - h.length with
      | zero => simp [mkStatus, NewStatusImpl]
      | succ j => simp

/-- The first combination of an open DictStatus with the default combiner and live children
returns and leaves a live base; the statuses allocated before are untouched, and when all
children are Ok the base was not allocated before. -/
theorem DictStatus.ensureCombined_default (m order : GoMap Status) (h : Heap)
    (log : List (GoMap Status)) (hperm : order.Perm m) (hlive : ChildrenLive h m) :
    ∃ r o h1,
      DictStatus.ensureCombined order (openWorld m DefaultCombiner h log)
        = (some (), { d := { base := Status.ptr r, children := m,
                             combiner := DefaultCombiner },
                      heap := h1, combines := log ++ [order] }) ∧
      h1.deref (Status.ptr r) = some o ∧
      (∀ p, (h.deref p).isSome = true → h1.deref p = h.deref p) ∧
      (∀ p, frameLen h1 p = frameLen h p) ∧
      ((∀ e ∈ m, Status.Code h e.2 = some Ok) → h.deref (Status.ptr r) = none) := by
  have hlive2 : ChildrenLive h order := fun e he => hlive e (hperm.subset he)
  rcases DefaultCombiner.Combine_cases h order hlive2 with ⟨k, c, hmem, hcomb⟩ | ⟨hok, hcomb⟩
  · obtain ⟨o, ho⟩ := Option.isSome_iff_exists.mp (hlive2 (k, c) hmem)
    cases c with
    | nil => simp [Heap.deref] at ho
    | ptr r =>
      refine ⟨r, o, h, ?_, ho, fun _ _ => rfl, fun _ => rfl, ?_⟩
      · simp [DictStatus.ensureCombined, openWorld, DefaultCombiner, hcomb]
      · intro hallok
        have hnot : DefaultCombiner.Combine order h
            = (some (Status.ptr h.length), h ++ [mkStatus InfoLevel Ok ""]) :=
          DefaultCombiner.Combine_all_ok h order (fun e he => hallok e (hperm.subset he))
        rw [hcomb] at hnot
        have hlen := congrArg (fun q => q.2.length) hnot
        simp at hlen
  · refine ⟨h.length, mkStatus InfoLevel Ok "", h ++ [mkStatus InfoLevel Ok ""], ?_, ?_,
      fun p hp => Heap.deref_append_live h _ p hp,
      fun p => frameLen_append_new h InfoLevel Ok "" p, ?_⟩
    · simp [DictStatus.ensureCombined, openWorld, DefaultCombiner, hcomb]
    · simp [Heap.deref]
    · intro _
      simp [Heap.deref]

/-- C19 (amended): for every DictStatus with the default combiner and live leaf children, open
or already combined, and every order of the two ranges, one call of Capture() returns (the
aggregator), keeps the children mapping and leaves a base; every status gets one frame if
it is the combined base and one frame for each key it is a child under, and nothing else,
and the aggregate's Frame() is the base's. So on an open DictStatus whose children are all Ok
and pairwise distinct the base is new and has exactly one frame and every child has exactly
one frame more; a child that is itself the combined base has two frames more. -/
theorem C19_capture_frames_per_status (w : World Unit) (order loop : GoMap Status)
    (rt : Nat → Frame) (hcomb : w.d.combiner = DefaultCombiner)
    (hperm : order.Perm w.d.children) (hloop : loop.Perm w.d.children)
    (hlive : ChildrenLive w.heap w.d.children)
    (hbase : w.d.base = Status.nil ∨ (w.heap.deref w.d.base).isSome = true) :
    (DictStatus.Capture order loop rt w).1 = some () ∧
    (DictStatus.Capture order loop rt w).2.d.children = w.d.children ∧
    (DictStatus.Capture order loop rt w).2.d.base ≠ Status.nil ∧
    (∀ p, frameLen (DictStatus.Capture order loop rt w).2.heap p
      = frameLen w.heap p
        + (if p = (DictStatus.Capture order loop rt w).2.d.base then 1 else 0)
        + (w.d.children.map Prod.snd).count p) ∧
    (DictStatus.Frame order (DictStatus.Capture order loop rt w).2).1.map List.length
      = some (frameLen (DictStatus.Capture order loop rt w).2.heap
          (DictStatus.Capture order loop rt w).2.d.base) ∧
    (w.d.base = Status.nil → (∀ e ∈ w.d.children, Status.Code w.heap e.2 = some Ok) →
      (w.d.children.map Prod.snd).Nodup →
      frameLen (DictStatus.Capture order loop rt w).2.heap
        (DictStatus.Capture order loop rt w).2.d.base = 1 ∧
      ∀ e ∈ w.d.children, frameLen (DictStatus.Capture order loop rt w).2.heap e.2
        = frameLen w.heap e.2 + 1) ∧
    ((w.d.children.map Prod.snd).Nodup → ∀ e ∈ w.d.children,
      e.2 = (DictStatus.Capture order loop rt w).2.d.base →
      frameLen (DictStatus.Capture order loop rt w).2.heap e.2 = frameLen w.heap e.2 + 2) := by
  have hstep : ∃ (w1 : World Unit) (r : Ref) (o : status),
      DictStatus.Capture order loop rt w = DictStatus.Capture order loop rt w1 ∧
      w1.d.base = Status.ptr r ∧ w1.d.children = w.d.children ∧
      w1.heap.deref (Status.ptr r) = some o ∧
      (∀ p, (w.heap.deref p).isSome = true → w1.heap.deref p = w.heap.deref p) ∧
      (∀ p, frameLen w1.heap p = frameLen w.heap p) ∧
      (w.d.base = Status.nil → (∀ e ∈ w.d.children, Status.Code w.heap e.2 = some Ok) →
        w.heap.deref (Status.ptr r) = none) := by
    by_cases hb : w.d.base = Status.nil
    · have hw : w = openWorld w.d.children DefaultCombiner w.heap w.combines := by
        obtain ⟨⟨b, ch, cb⟩, hp, lg⟩ := w
        simp only at hb hcomb
        subst hb hcomb
        rfl
      obtain ⟨r, o, h1, he, ho, hkeep, hfl, hnew⟩ :=
        DictStatus.ensureCombined_default w.d.children order w.heap w.combines hperm hlive
      rw [← hw] at he
      exact ⟨_, r, o, DictStatus.Capture_after_ensure w _ order loop rt he (by simp),
        rfl, rfl, ho, hkeep, hfl, fun _ hall => hnew hall⟩
    · have hsome : (w.heap.deref w.d.base).isSome = true := hbase.resolve_left hb
      obtain ⟨o, ho⟩ := Option.isSome_iff_exists.mp hsome
      cases hbr : w.d.base with
      | nil => exact absurd hbr hb
      | ptr r =>
        rw [hbr] at ho
        exact ⟨w, r, o, rfl, hbr, rfl, ho, fun _ _ => rfl, fun _ => rfl,
          fun hnil => absurd hnil (by simp)⟩
  obtain ⟨w1, r, o, hcap, hb1, hch1, ho1, hkeep, hfl, hnew⟩ := hstep
  have hlive1 : ChildrenLive w1.heap loop := by
    intro e he
    have hl := hlive e (hloop.subset he)
    rw [hkeep e.2 hl]
    exact hl
  obtain ⟨c1, c2, c3, c4⟩ := DictStatus.Capture_closed w1 order loop rt r o hb1 ho1 hlive1
  have hcount : ∀ p, (loop.map Prod.snd).count p = (w.d.children.map Prod.snd).count p :=
    fun p => (hloop.map Prod.snd).count_eq p
  have hbase2 : (DictStatus.Capture order loop rt w).2.d.base = Status.ptr r := by
    rw [hcap, c2, hb1]
  have hchildren2 : (DictStatus.Capture order loop rt w).2.d.children = w.d.children := by
    rw [hcap, c2, hch1]
  have hframes : ∀ p, frameLen (DictStatus.Capture order loop rt w).2.heap p
      = frameLen w.heap p + (if p = Status.ptr r then 1 else 0)
        + (w.d.children.map Prod.snd).count p := by
    intro p
    rw [hcap, c3 p, hfl p, hb1, hcount p]
  have hmemcount : (w.d.children.map Prod.snd).Nodup → ∀ e ∈ w.d.children,
      (w.d.children.map Prod.snd).count e.2 = 1 :=
    fun hnd e he => List.count_eq_one_of_mem hnd (List.mem_map_of_mem Prod.snd he)
  refine ⟨by rw [hcap]; exact c1, hchildren2, by rw [hbase2]; simp, ?_, ?_, ?_, ?_⟩
  · intro p
    rw [hbase2]
    exact hframes p
  · have hlive2 : ((DictStatus.Capture order loop rt w).2.heap.deref (Status.ptr r)).isSome
        = true := by
      rw [hcap, c4, ho1]
      rfl
    obtain ⟨o2, ho2⟩ := Option.isSome_iff_exists.mp hlive2
    have hne : (DictStatus.Capture order loop rt w).2.d.base ≠ Status.nil := by
      rw [hbase2]
      simp
    simp only [DictStatus.Frame, DictStatus.ensureCombined_closed order _ hne, hbase2,
      Status.Frame, frameLen, ho2, Option.map_some', Option.getD_some]
    rfl
  · intro hnil hall hnd
    have hfresh := hnew hnil hall
    have hnotin : Status.ptr r ∉ w.d.children.map Prod.snd := by
      intro hin
      obtain ⟨e, he, heq⟩ := List.mem_map.mp hin
      have hl := hlive e he
      rw [heq, hfresh] at hl
      simp at hl
    refine ⟨?_, ?_⟩
    · rw [hbase2, hframes (Status.ptr r), List.count_eq_zero_of_not_mem hnotin]
      simp [frameLen, hfresh]
    · intro e he
      have hne : e.2 ≠ Status.ptr r := fun hc => hnotin (hc ▸ List.mem_map_of_mem Prod.snd he)
      rw [hframes e.2, hmemcount hnd e he]
      simp [hne]
  · intro hnd e he heq
    rw [hbase2] at heq
    rw [hframes e.2, hmemcount hnd e he]
    simp [heq]

/-- C19 (amended) at a new DictStatus with the one Ok child c: after Capture() the base has one
frame and c has one frame; and at the children a (Ok) and b (not Ok): the child a has one
frame more. -/
theorem C19_capture_frames_per_status_witness :
    (frameLen (DictStatus.Capture [("c", xyChild)] [("c", xyChild)]
        (fun _ => captureFrame 7 "status.go") xyOpen).2.heap
        (DictStatus.Capture [("c", xyChild)] [("c", xyChild)]
          (fun _ => captureFrame 7 "status.go") xyOpen).2.d.base = 1 ∧
      ∀ e ∈ xyOpen.d.children,
        frameLen (DictStatus.Capture [("c", xyChild)] [("c", xyChild)]
          (fun _ => captureFrame 7 "status.go") xyOpen).2.heap e.2
        = frameLen xyOpen.heap e.2 + 1) ∧
    (DictStatus.Capture [("a", abA), ("b", abB)] [("b", abB), ("a", abA)]
      (fun _ => captureFrame 7 "status.go") abWorld).1 = some () ∧
    frameLen (DictStatus.Capture [("a", abA), ("b", abB)] [("b", abB), ("a", abA)]
      (fun _ => captureFrame 7 "status.go") abWorld).2.heap abA = 1 :=
  ⟨(C19_capture_frames_per_status xyOpen [("c", xyChild)] [("c", xyChild)]
      (fun _ => captureFrame 7 "status.go") rfl (List.Perm.refl _) (List.Perm.refl _)
      (by decide) (Or.inl rfl)).2.2.2.2.2.1 rfl (by decide) (by decide),
   (C19_capture_frames_per_status abWorld [("a", abA), ("b", abB)] [("b", abB), ("a", abA)]
      (fun _ => captureFrame 7 "status.go") rfl (List.Perm.refl _) (List.Perm.swap _ _ _)
      (by decide) (Or.inl rfl)).1,
   by decide⟩

/-- C19 as stated fails: with children a = Info(Ok, "") and b = Error(Internal, "boom") the
default combiner makes the child b itself the base, so one Capture() on the DictStatus
captures on b twice: `b.Frame()` and the aggregate's Frame() go from no frame to two. -/
theorem C19_capture_twice_on_base_child_counterexample :
    frameLen abWorld.heap abB = 0 ∧
    (DictStatus.Capture [("a", abA), ("b", abB)] [("a", abA), ("b", abB)]
      (fun _ => captureFrame 7 "status.go") abWorld).2.d.base = abB ∧
    frameLen (DictStatus.Capture [("a", abA), ("b", abB)] [("a", abA), ("b", abB)]
      (fun _ => captureFrame 7 "status.go") abWorld).2.heap abB = 2 ∧
    ((DictStatus.Frame [("a", abA), ("b", abB)] abWorld).1.map List.length = some 0 ∧
     (DictStatus.Frame [("a", abA), ("b", abB)]
        (DictStatus.Capture [("a", abA), ("b", abB)] [("a", abA), ("b", abB)]
          (fun _ => captureFrame 7 "status.go") abWorld).2).1.map List.length = some 2) ∧
    ¬ (∀ e ∈ abWorld.d.children,
        frameLen (DictStatus.Capture [("a", abA), ("b", abB)] [("a", abA), ("b", abB)]
          (fun _ => captureFrame 7 "status.go") abWorld).2.heap e.2
        = frameLen abWorld.heap e.2 + 1) :=
  ⟨by decide, by decide, by decide, ⟨by decide, by decide⟩,
   fun hall => absurd (hall ("b", abB) (by decide)) (by decide)⟩

/-- With a visitor that always returns false the loop over live children returns, and in
every child it visits the first entry its payload range yields and no other. -/
theorem walkChildren_always_false {τ : Type} (fn : Visitor τ)
    (hfalse : ∀ s k v, (fn s k v).1 = false) (h : Heap)
    (loop : List (String × Status × List (String × String)))
    (hlive : ∀ e ∈ loop, (h.deref e.2.1).isSome = true) (t : τ) :
    (walkChildren fn h loop t).1 = some () ∧
    (walkChildren fn h loop t).2.2 = loop.flatMap (fun e => e.2.2.take 1) := by
  induction loop generalizing t with
  | nil => simp [walkChildren]
  | cons e rest ih =>
    obtain ⟨k, s, order⟩ := e
    obtain ⟨o, ho⟩ := Option.isSome_iff_exists.mp (hlive (k, s, order) (by simp))
    have ih1 := ih (fun e he => hlive e (by simp [he])) (walkLoop fn order t).1
    simp only [walkChildren, Status.WalkPayload, status.WalkPayload, ho,
      walkLoop_always_false fn hfalse, List.flatMap_cons]
    exact ⟨ih1.1, by rw [ih1.2]⟩

/-- Taking the first entry of each range: as many entries as there are non-empty ranges. -/
theorem length_flatMap_take_one (loop : List (String × Status × List (String × String))) :
    (loop.flatMap (fun e => e.2.2.take 1)).length
      = loop.countP (fun e => decide (e.2.2 ≠ [])) := by
  induction loop with
  | nil => rfl
  | cons e rest ih =>
    obtain ⟨k, s, order⟩ := e
    cases order with
    | nil => simp [List.countP_cons, ih]
    | cons x xs => simp [List.countP_cons, ih]

/-- C20: for every combined DictStatus (live base, live leaf children), a visitor that always
returns false and every order of the ranges, WalkPayload returns after walking the base and
then every child, the false of one walk not ending the next: the visitor is invoked on the
first entry of the base payload range if the base payload is not empty, then for each child
walked on the first entry of its payload range if its payload is not empty, and on nothing
else; the number of visits is the number of walked statuses, the base and the children,
whose payload is not empty. -/
theorem C20_walk_payload_stop_is_per_status {σ τ : Type} (fn : Visitor τ) (t : τ)
    (w : World σ) (b : status) (baseOrder : List (String × String))
    (loop : List (String × Status × List (String × String)))
    (hfalse : ∀ s k v, (fn s k v).1 = false)
    (hbase : w.heap.deref w.d.base = some b)
    (hbo : baseOrder.Perm b.payload)
    (hloop : (loop.map (fun e => (e.1, e.2.1))).Perm w.d.children)
    (hord : ∀ e ∈ loop, ∃ o, w.heap.deref e.2.1 = some o ∧ e.2.2.Perm o.payload) :
    (DictStatus.WalkPayload fn t baseOrder loop w).1 = some () ∧
    (DictStatus.WalkPayload fn t baseOrder loop w).2.2.1
      = baseOrder.take 1 ++ loop.flatMap (fun e => e.2.2.take 1) ∧
    (baseOrder.take 1).length = (if b.payload = [] then 0 else 1) ∧
    (∀ e ∈ loop, (e.2.2.take 1).length = if payloadOf w.heap e.2.1 = [] then 0 else 1) ∧
    (DictStatus.WalkPayload fn t baseOrder loop w).2.2.1.length
      = (if b.payload = [] then 0 else 1)
        + w.d.children.countP (fun c => decide (payloadOf w.heap c.2 ≠ [])) := by
  have hlive : ∀ e ∈ loop, (w.heap.deref e.2.1).isSome = true := by
    intro e he
    obtain ⟨o, ho, _⟩ := hord e he
    simp [ho]
  have hwc := walkChildren_always_false fn hfalse w.heap loop hlive (walkLoop fn baseOrder t).1
  have hW : DictStatus.WalkPayload fn t baseOrder loop w
      = ((walkChildren fn w.heap loop (walkLoop fn baseOrder t).1).1,
         (walkChildren fn w.heap loop (walkLoop fn baseOrder t).1).2.1,
         baseOrder.take 1 ++ (walkChildren fn w.heap loop (walkLoop fn baseOrder t).1).2.2,
         w) := by
    simp only [DictStatus.WalkPayload, Status.WalkPayload, status.WalkPayload, hbase,
      walkLoop_always_false fn hfalse]
  have hone : ∀ (order payload : List (String × String)), order.Perm payload →
      (order.take 1).length = if payload = [] then 0 else 1 := by
    intro order payload hp
    cases payload with
    | nil => simp [hp.eq_nil]
    | cons x xs =>
      cases order with
      | nil => exact absurd hp.nil_eq (by simp)
      | cons y ys => simp
  have hchild : ∀ e ∈ loop, (e.2.2.take 1).length
      = if payloadOf w.heap e.2.1 = [] then 0 else 1 := by
    intro e he
    obtain ⟨o, ho, hp⟩ := hord e he
    have : payloadOf w.heap e.2.1 = o.payload := by simp [payloadOf, ho]
    rw [this]
    exact hone e.2.2 o.payload hp
  have hbaseone := hone baseOrder b.payload hbo
  have hnonempty : ∀ e ∈ loop, (decide (e.2.2 ≠ []) = true ↔
      decide (payloadOf w.heap e.2.1 ≠ []) = true) := by
    intro e he
    obtain ⟨o, ho, hp⟩ := hord e he
    have hpo : payloadOf w.heap e.2.1 = o.payload := by simp [payloadOf, ho]
    rw [hpo]
    simp only [decide_eq_true_eq, ne_eq, not_iff_not]
    constructor
    · intro hnil
      rw [hnil] at hp
      exact hp.nil_eq.symm
    · intro hnil
      rw [hnil] at hp
      exact hp.eq_nil
  have hcount : loop.countP (fun e => decide (e.2.2 ≠ []))
      = w.d.children.countP (fun c => decide (payloadOf w.heap c.2 ≠ [])) := by
    rw [List.countP_congr hnonempty, ← hloop.countP_eq, List.countP_map]
    rfl
  rw [hW]
  refine ⟨hwc.1, by simp only [hwc.2], hbaseone, hchild, ?_⟩
  simp only [hwc.2, List.length_append, hbaseone, length_flatMap_take_one, hcount]

/-- C20 at the DictStatus whose base has the payload x = 1 and whose one child has the payload
y = 2: a visitor that always returns false is invoked on x = 1 and then on y = 2, twice in
all. -/
theorem C20_walk_payload_stop_is_per_status_witness :
    ((DictStatus.WalkPayload countFalse 0 [("x", "1")] [("c", xyChild, [("y", "2")])]
        xyWorld).1 = some () ∧
     (DictStatus.WalkPayload countFalse 0 [("x", "1")] [("c", xyChild, [("y", "2")])]
        xyWorld).2.2.1
       = List.take 1 [("x", "1")]
         ++ List.flatMap [("c", xyChild, [("y", "2")])] (fun e => e.2.2.take 1) ∧
     (List.take 1 [("x", "1")]).length
       = (if (mkStatus InfoLevel Ok "" |>.SetPayload "x" "1").payload = [] then 0 else 1) ∧
     (∀ e ∈ [("c", xyChild, [("y", "2")])],
       (e.2.2.take 1).length = if payloadOf xyWorld.heap e.2.1 = [] then 0 else 1) ∧
     (DictStatus.WalkPayload countFalse 0 [("x", "1")] [("c", xyChild, [("y", "2")])]
        xyWorld).2.2.1.length
       = (if (mkStatus InfoLevel Ok "" |>.SetPayload "x" "1").payload = [] then 0 else 1)
         + xyWorld.d.children.countP (fun c => decide (payloadOf xyWorld.heap c.2 ≠ []))) ∧
    (DictStatus.WalkPayload countFalse 0 [("x", "1")] [("c", xyChild, [("y", "2")])]
        xyWorld).2.2.1 = [("x", "1"), ("y", "2")] ∧
    (DictStatus.WalkPayload countFalse 0 [("x", "1")] [("c", xyChild, [("y", "2")])]
        xyWorld).2.1 = 2 :=
  ⟨C20_walk_payload_stop_is_per_status countFalse 0 xyWorld
      (mkStatus InfoLevel Ok "" |>.SetPayload "x" "1") [("x", "1")]
      [("c", xyChild, [("y", "2")])] (fun _ _ _ => rfl) (by decide) (List.Perm.refl _)
      (List.Perm.refl _)
      (fun e he => by
        have hE : e = ("c", xyChild, [("y", "2")]) := by simpa using he
        subst hE
        exact ⟨(mkStatus InfoLevel Ok "").SetPayload "y" "2", by decide, List.Perm.refl _⟩),
   by decide, by decide⟩

/-- The first combination of an open DictStatus whose combiner returns a status: the status
becomes the base, the combiner keeps the state and the heap its Combine left, and the
invocation is recorded. -/
theorem DictStatus.ensureCombined_open_some {σ : Type} (order : GoMap Status) (w : World σ)
    (b : Status) (hb : w.d.base = Status.nil) (hc : (w.combined order).1 = some b) :
    DictStatus.ensureCombined order w
      = (some (), { d := { base := b, children := w.d.children,
                           combiner := { state := (w.combined order).2.1,
                                         Combine := w.d.combiner.Combine } },
                    heap := (w.combined order).2.2, combines := w.combines ++ [order] }) := by
  simp only [World.combined] at hc
  simp only [DictStatus.ensureCombined, hb, if_true, World.combined, hc]

/-- The state of the combiner after ensureCombined on an open DictStatus is the state its
one Combine on the given mapping left, whatever Combine returned. -/
theorem DictStatus.ensureCombined_open_state {σ : Type} (order : GoMap Status) (w : World σ)
    (hb : w.d.base = Status.nil) :
    (DictStatus.ensureCombined order w).2.d.combiner.state = (w.combined order).2.1 ∧
    (DictStatus.ensureCombined order w).2.d.combiner.Combine = w.d.combiner.Combine := by
  simp only [DictStatus.ensureCombined, hb, if_true, World.combined]
  split <;> exact ⟨rfl, rfl⟩

/-- On a combined DictStatus an accessor that only reads returns what the accessor of the
same name returns on the base, and writes nothing. -/
theorem DictStatus.call_read_closed {σ : Type} (c : Call) (w : World σ)
    (hb : w.d.base ≠ Status.nil) (hr : c.isRead = true) :
    DictStatus.call c w = (c.onStatus w.heap w.d.base, w) := by
  cases c <;>
    simp only [Call.isRead, Bool.false_eq_true] at hr <;>
    simp only [DictStatus.call, DictStatus.Code, DictStatus.Level, DictStatus.Message,
      DictStatus.Frame, DictStatus.GetPayload, DictStatus.ensureCombined_closed _ w hb,
      Call.onStatus]

/-- On a combined DictStatus every sequence of reading accessors returns, call by call, what
the accessors of the same names return on the base, and writes nothing. -/
theorem DictStatus.calls_read_closed {σ : Type} (cs : List Call) (w : World σ)
    (hb : w.d.base ≠ Status.nil) (hr : ∀ x ∈ cs, x.isRead = true) :
    DictStatus.calls cs w = (cs.map (fun x => x.onStatus w.heap w.d.base), w) := by
  induction cs with
  | nil => rfl
  | cons c rest ih =>
    have h1 := DictStatus.call_read_closed c w hb (hr c (by simp))
    have h2 := ih (fun x hx => hr x (by simp [hx]))
    simp only [DictStatus.calls, h1, h2, List.map_cons]

/-- On a combined DictStatus no sequence of accessor calls, panics recovered, invokes the
combiner or writes the DictStatus. -/
theorem DictStatus.calls_closed {σ : Type} (cs : List Call) (w : World σ)
    (hb : w.d.base ≠ Status.nil) :
    (DictStatus.calls cs w).2.combines = w.combines ∧ (DictStatus.calls cs w).2.d = w.d := by
  induction cs generalizing w with
  | nil => exact ⟨rfl, rfl⟩
  | cons c rest ih =>
    have hf := DictStatus.call_frame c w
    rw [DictStatus.ensureCombined_closed c.order w hb] at hf
    have hb1 : (DictStatus.call c w).2.d.base ≠ Status.nil := by rw [hf.2]; exact hb
    have := ih (DictStatus.call c w).2 hb1
    simp only [DictStatus.calls]
    exact ⟨this.1.trans hf.1, this.2.trans hf.2⟩

/-- The first read of an open DictStatus whose combiner returns a status other than nil, and
every read after it, return what the accessors of the same names return on that status, on
the heap Combine left. -/
theorem DictStatus.calls_read_open {σ : Type} (c : Call) (cs : List Call) (w : World σ)
    (b : Status) (hb : w.d.base = Status.nil) (hc : (w.combined c.order).1 = some b)
    (hne : b ≠ Status.nil) (hr : c.isRead = true) (hrs : ∀ x ∈ cs, x.isRead = true) :
    (DictStatus.calls (c :: cs) w).1
      = (c :: cs).map (fun x => x.onStatus (w.combined c.order).2.2 b) ∧
    (DictStatus.calls (c :: cs) w).2.d.base = b ∧
    (DictStatus.calls (c :: cs) w).2.heap = (w.combined c.order).2.2 := by
  have he := DictStatus.ensureCombined_open_some c.order w b hb hc
  have hcall : DictStatus.call c w
      = (c.onStatus (w.combined c.order).2.2 b,
         { d := { base := b, children := w.d.children,
                  combiner := { state := (w.combined c.order).2.1,
                                Combine := w.d.combiner.Combine } },
           heap := (w.combined c.order).2.2, combines := w.combines ++ [c.order] }) := by
    cases c <;>
      simp only [Call.isRead, Bool.false_eq_true] at hr <;>
      simp only [Call.order] at he <;>
      simp only [DictStatus.call, DictStatus.Code, DictStatus.Level, DictStatus.Message,
        DictStatus.Frame, DictStatus.GetPayload, he, Call.onStatus, Call.order]
  have hrest := DictStatus.calls_read_closed cs
    { d := { base := b, children := w.d.children,
             combiner := { state := (w.combined c.order).2.1,
                           Combine := w.d.combiner.Combine } },
      heap := (w.combined c.order).2.2, combines := w.combines ++ [c.order] } hne hrs
  have hall : DictStatus.calls (c :: cs) w
      = ((c :: cs).map (fun x => x.onStatus (w.combined c.order).2.2 b),
         { d := { base := b, children := w.d.children,
                  combiner := { state := (w.combined c.order).2.1,
                                Combine := w.d.combiner.Combine } },
           heap := (w.combined c.order).2.2, combines := w.combines ++ [c.order] }) := by
    simp only [DictStatus.calls, hcall, hrest, List.map_cons]
  rw [hall]
  exact ⟨rfl, rfl, rfl⟩

/-- C1: for every children mapping `m` of live leaf statuses with a child whose code is not Ok
and every iteration order `order` of `m`, DefaultCombiner.Combine returns the first child in
`order` whose code is not Ok (everything before it is Ok), without touching the heap, and
that child is an entry of `m`. An open DictStatus with the default combiner and children `m`
reports on its first read that child's code (different from Ok), message or level, the child
itself having become the base; and on the same DictStatus, once one read has combined it,
every later read, whatever order a range would then take, still answers with that same
child: Code() then Message() then Level() give its code, its message and its level. -/
theorem C1_default_combiner_first_not_ok (m order : GoMap Status) (h : Heap)
    (log : List (GoMap Status))
    (hperm : order.Perm m) (hlive : ChildrenLive h m)
    (hbad : ∃ e ∈ m, ∃ o, h.deref e.2 = some o ∧ o.code ≠ Ok) :
    ∃ pre k c post o,
      order = pre ++ (k, c) :: post ∧ (k, c) ∈ m ∧
      (∀ e ∈ pre, Status.Code h e.2 = some Ok) ∧
      h.deref c = some o ∧ o.code ≠ Ok ∧
      DefaultCombiner.Combine order h = (some c, h) ∧
      (DictStatus.Code order (openWorld m DefaultCombiner h log)).1 = some o.code ∧
      (DictStatus.Message order (openWorld m DefaultCombiner h log)).1 = some o.message ∧
      (DictStatus.Level order (openWorld m DefaultCombiner h log)).1 = some o.level ∧
      (DictStatus.Code order (openWorld m DefaultCombiner h log)).2.d.base = c ∧
      (∀ o2 o3 o4,
        (DictStatus.run [Call.Code order, Call.Message o2, Call.Level o3, Call.Code o4]
          (openWorld m DefaultCombiner h log)).1
          = some [Value.code o.code, Value.message o.message, Value.level o.level,
                  Value.code o.code]) ∧
      (∀ o2, (DictStatus.Message o2
          (DictStatus.Code order (openWorld m DefaultCombiner h log)).2).1 = some o.message) ∧
      (∀ o2, (DictStatus.Level o2
          (DictStatus.Code order (openWorld m DefaultCombiner h log)).2).1 = some o.level) ∧
      (∀ o2, (DictStatus.Code o2
          (DictStatus.Message order (openWorld m DefaultCombiner h log)).2).1 = some o.code) ∧
      (∀ first cs, first.isRead = true → first.order = order →
        (∀ x ∈ cs, x.isRead = true) →
        (DictStatus.calls (first :: cs) (openWorld m DefaultCombiner h log)).1
          = (first :: cs).map (fun x => x.onStatus h c)) ∧
      (∀ o2, (Call.Code o2).onStatus h c = some (Value.code o.code) ∧
        (Call.Message o2).onStatus h c = some (Value.message o.message) ∧
        (Call.Level o2).onStatus h c = some (Value.level o.level)) := by
  have hlive2 : ChildrenLive h order := fun e he => hlive e (hperm.subset he)
  have hbad2 : ∃ e ∈ order, ∃ o, h.deref e.2 = some o ∧ o.code ≠ Ok := by
    obtain ⟨e, he, rest⟩ := hbad
    exact ⟨e, hperm.symm.subset he, rest⟩
  obtain ⟨pre, k, c, post, o, hsplit, hpre, hc, hne⟩ := exists_first_not_ok h order hlive2 hbad2
  have hcomb := DefaultCombiner.Combine_append h pre k c post o hpre hc hne
  rw [← hsplit] at hcomb
  have hcnil : c ≠ Status.nil := by
    intro hnil
    rw [hnil] at hc
    simp [Heap.deref] at hc
  have hE : DictStatus.ensureCombined order (openWorld m DefaultCombiner h log)
      = (some (), { d := { base := c, children := m, combiner := DefaultCombiner },
                    heap := h, combines := log ++ [order] }) := by
    simp [DictStatus.ensureCombined, openWorld, DefaultCombiner, hcomb]
  have hcl : ∀ o2, DictStatus.ensureCombined o2
      ({ d := { base := c, children := m, combiner := DefaultCombiner },
         heap := h, combines := log ++ [order] } : World Unit)
      = (some (), { d := { base := c, children := m, combiner := DefaultCombiner },
                    heap := h, combines := log ++ [order] }) :=
    fun o2 => DictStatus.ensureCombined_closed o2 _ hcnil
  have hcombined : ((openWorld m DefaultCombiner h log).combined order).1 = some c := by
    simp [World.combined, openWorld, DefaultCombiner, hcomb]
  have hheap : ((openWorld m DefaultCombiner h log).combined order).2.2 = h := by
    simp [World.combined, openWorld, DefaultCombiner, hcomb]
  refine ⟨pre, k, c, post, o, hsplit, ?_, hpre, hc, hne, hcomb, ?_, ?_, ?_, ?_, ?_, ?_, ?_,
    ?_, ?_, ?_⟩
  · exact hperm.subset (by simp [hsplit])
  · simp [DictStatus.Code, hE, Status.Code, hc, status.Code]
  · simp [DictStatus.Message, hE, Status.Message, hc, status.Message]
  · simp [DictStatus.Level, hE, Status.Level, hc, status.Level]
  · simp [DictStatus.Code, hE]
  · intro o2 o3 o4
    simp [DictStatus.run, DictStatus.call, DictStatus.Code, DictStatus.Message,
      DictStatus.Level, hE, hcl, Status.Code, Status.Message, Status.Level, hc,
      status.Code, status.Message, status.Level]
  · intro o2
    simp [DictStatus.Code, DictStatus.Message, hE, hcl, Status.Message, hc, status.Message]
  · intro o2
    simp [DictStatus.Code, DictStatus.Level, hE, hcl, Status.Level, hc, status.Level]
  · intro o2
    simp [DictStatus.Code, DictStatus.Message, hE, hcl, Status.Code, hc, status.Code]
  · intro first cs hr hord hrs
    have hcombined2 : ((openWorld m DefaultCombiner h log).combined first.order).1 = some c := by
      rw [hord]
      exact hcombined
    have key := (DictStatus.calls_read_open first cs (openWorld m DefaultCombiner h log) c rfl
      hcombined2 hcnil hr hrs).1
    rw [hord, hheap] at key
    exact key
  · intro o2
    simp [Call.onStatus, Status.Code, Status.Message, Status.Level, hc, status.Code,
      status.Message, status.Level]

/-- C1 at the children a = Info(Ok, "") and b = Error(Internal, "boom"), ranged over as b, a;
in both orders Code() then Message() then Level() on the one DictStatus give Internal, "boom"
and Error; with the two children b and e = Fatal(DataLoss, "gone"), both not Ok, the child
the first read picked answers every later read, whatever order the later calls are given. -/
theorem C1_default_combiner_first_not_ok_witness :
    (∃ pre k c post o,
      [("b", abB), ("a", abA)] = pre ++ (k, c) :: post ∧ (k, c) ∈ abWorld.d.children ∧
      (∀ e ∈ pre, Status.Code abHeap e.2 = some Ok) ∧
      abHeap.deref c = some o ∧ o.code ≠ Ok ∧
      DefaultCombiner.Combine [("b", abB), ("a", abA)] abHeap = (some c, abHeap) ∧
      (DictStatus.Code [("b", abB), ("a", abA)]
        (openWorld abWorld.d.children DefaultCombiner abHeap [])).1 = some o.code ∧
      (DictStatus.Message [("b", abB), ("a", abA)]
        (openWorld abWorld.d.children DefaultCombiner abHeap [])).1 = some o.message ∧
      (DictStatus.Level [("b", abB), ("a", abA)]
        (openWorld abWorld.d.children DefaultCombiner abHeap [])).1 = some o.level ∧
      (DictStatus.Code [("b", abB), ("a", abA)]
        (openWorld abWorld.d.children DefaultCombiner abHeap [])).2.d.base = c ∧
      (∀ o2 o3 o4,
        (DictStatus.run [Call.Code [("b", abB), ("a", abA)], Call.Message o2, Call.Level o3,
            Call.Code o4]
          (openWorld abWorld.d.children DefaultCombiner abHeap [])).1
          = some [Value.code o.code, Value.message o.message, Value.level o.level,
                  Value.code o.code]) ∧
      (∀ o2, (DictStatus.Message o2
          (DictStatus.Code [("b", abB), ("a", abA)]
            (openWorld abWorld.d.children DefaultCombiner abHeap [])).2).1
          = some o.message) ∧
      (∀ o2, (DictStatus.Level o2
          (DictStatus.Code [("b", abB), ("a", abA)]
            (openWorld abWorld.d.children DefaultCombiner abHeap [])).2).1 = some o.level) ∧
      (∀ o2, (DictStatus.Code o2
          (DictStatus.Message [("b", abB), ("a", abA)]
            (openWorld abWorld.d.children DefaultCombiner abHeap [])).2).1 = some o.code) ∧
      (∀ first cs, first.isRead = true → first.order = [("b", abB), ("a", abA)] →
        (∀ x ∈ cs, x.isRead = true) →
        (DictStatus.calls (first :: cs)
          (openWorld abWorld.d.children DefaultCombiner abHeap [])).1
          = (first :: cs).map (fun x => x.onStatus abHeap c)) ∧
      (∀ o2, (Call.Code o2).onStatus abHeap c = some (Value.code o.code) ∧
        (Call.Message o2).onStatus abHeap c = some (Value.message o.message) ∧
        (Call.Level o2).onStatus abHeap c = some (Value.level o.level))) ∧
    (DictStatus.run [Call.Code [("a", abA), ("b", abB)], Call.Message [("b", abB), ("a", abA)],
        Call.Level []] abWorld).1
      = some [Value.code Internal, Value.message "boom", Value.level ErrorLevel] ∧
    (DictStatus.run [Call.Code [("b", abB), ("a", abA)], Call.Message [("a", abA), ("b", abB)],
        Call.Level []] abWorld).1
      = some [Value.code Internal, Value.message "boom", Value.level ErrorLevel] ∧
    (DictStatus.run [Call.Code [("b", abB), ("e", Status.ptr 2)],
        Call.Message [("e", Status.ptr 2), ("b", abB)],
        Call.Level [("e", Status.ptr 2), ("b", abB)]]
        (openWorld [("b", abB), ("e", Status.ptr 2)] DefaultCombiner
          (Fatal DataLoss "gone" abHeap).2 [])).1
      = some [Value.code Internal, Value.message "boom", Value.level ErrorLevel] ∧
    (DictStatus.run [Call.Code [("e", Status.ptr 2), ("b", abB)],
        Call.Message [("b", abB), ("e", Status.ptr 2)],
        Call.Level [("b", abB), ("e", Status.ptr 2)]]
        (openWorld [("b", abB), ("e", Status.ptr 2)] DefaultCombiner
          (Fatal DataLoss "gone" abHeap).2 [])).1
      = some [Value.code DataLoss, Value.message "gone", Value.level FatalLevel] :=
  ⟨C1_default_combiner_first_not_ok abWorld.d.children [("b", abB), ("a", abA)] abHeap []
      (List.Perm.swap _ _ _) (by decide)
      ⟨("b", abB), by decide, mkStatus ErrorLevel Internal "boom", by decide, by decide⟩,
    by decide, by decide, by decide, by decide⟩

/-- C3 (amended): for every DictStatus, every non-empty sequence of accessor calls (Code, Level,
Message, Frame, GetPayload, SetPayload, Capture) and every order in which the children
mapping is handed over. On an open DictStatus and for every combiner, as long as a panic
ends the sequence, Combine is invoked exactly once, by the first call and on the children
mapping: the combiner is left in the state its one Combine on that mapping produced. When
Combine returns a status other than nil the same holds with every panic recovered and the
sequence going on: that status is the base and Combine is never invoked again. On a
DictStatus that is already combined no call invokes Combine, the combiner keeps its state,
and ensureCombined leaves the whole state as it is. -/
theorem C3_combine_invoked_once {σ : Type} (w : World σ) (c : Call) (rest : List Call)
    (hperm : c.order.Perm w.d.children) :
    (w.d.base = Status.nil →
      (DictStatus.call c w).2.d.combiner.state = (w.combined c.order).2.1 ∧
      (DictStatus.call c w).2.combines = w.combines ++ [c.order] ∧
      (DictStatus.run (c :: rest) w).2.d.combiner.state = (w.combined c.order).2.1 ∧
      (DictStatus.run (c :: rest) w).2.combines = w.combines ++ [c.order]) ∧
    (w.d.base = Status.nil → ∀ b, (w.combined c.order).1 = some b → b ≠ Status.nil →
      (DictStatus.calls (c :: rest) w).2.d.combiner.state = (w.combined c.order).2.1 ∧
      (DictStatus.calls (c :: rest) w).2.combines = w.combines ++ [c.order] ∧
      (DictStatus.calls (c :: rest) w).2.d.base = b) ∧
    (w.d.base ≠ Status.nil →
      (DictStatus.calls (c :: rest) w).2.d.combiner.state = w.d.combiner.state ∧
      (DictStatus.calls (c :: rest) w).2.combines = w.combines ∧
      (DictStatus.run (c :: rest) w).2.d.combiner.state = w.d.combiner.state ∧
      (DictStatus.run (c :: rest) w).2.combines = w.combines ∧
      DictStatus.ensureCombined c.order w = (some (), w)) ∧
    (∀ e, e ∈ c.order ↔ e ∈ w.d.children) := by
  refine ⟨?_, ?_, ?_, fun e => hperm.mem_iff⟩
  · intro hb
    have hf := DictStatus.call_frame c w
    have hst := (DictStatus.ensureCombined_open_state c.order w hb).1
    have hlog := DictStatus.ensureCombined_open c.order w hb
    have h1 : (DictStatus.call c w).2.d.combiner.state = (w.combined c.order).2.1 := by
      rw [hf.2]
      exact hst
    have h2 : (DictStatus.call c w).2.combines = w.combines ++ [c.order] := by
      rw [hf.1]
      exact hlog
    refine ⟨h1, h2, ?_, ?_⟩
    · simp only [DictStatus.run]
      rcases hC : DictStatus.call c w with ⟨_ | v, w1⟩
      · rw [hC] at h1
        exact h1
      · have hb1 : w1.d.base ≠ Status.nil := by
          have := DictStatus.call_returns_base c w v (by rw [hC])
          rw [hC] at this
          exact this
        rw [hC] at h1
        simp only at h1 ⊢
        rw [(DictStatus.run_closed rest w1 hb1).2]
        exact h1
    · simp only [DictStatus.run]
      rcases hC : DictStatus.call c w with ⟨_ | v, w1⟩
      · rw [hC] at h2
        exact h2
      · have hb1 : w1.d.base ≠ Status.nil := by
          have := DictStatus.call_returns_base c w v (by rw [hC])
          rw [hC] at this
          exact this
        rw [hC] at h2
        simp only at h2 ⊢
        exact (DictStatus.run_closed rest w1 hb1).1.trans h2
  · intro hb b hc hne
    have hf := DictStatus.call_frame c w
    have he := DictStatus.ensureCombined_open_some c.order w b hb hc
    rw [he] at hf
    simp only at hf
    have hb1 : (DictStatus.call c w).2.d.base ≠ Status.nil := by
      rw [hf.2]
      exact hne
    have hcl := DictStatus.calls_closed rest (DictStatus.call c w).2 hb1
    simp only [DictStatus.calls]
    refine ⟨?_, ?_, ?_⟩
    · rw [hcl.2, hf.2]
    · rw [hcl.1, hf.1]
    · rw [hcl.2, hf.2]
  · intro hb
    have hcl := DictStatus.calls_closed (c :: rest) w hb
    have hrl := DictStatus.run_closed (c :: rest) w hb
    refine ⟨?_, hcl.1, ?_, hrl.1, DictStatus.ensureCombined_closed c.order w hb⟩
    · rw [hcl.2]
    · rw [hrl.2]

/-- C3 (amended) with a stub that records every mapping it is handed, on the open DictStatus
with children a and b: after Code(), Message(), a Capture() that panics on a nil child and is
recovered, and Code() again, the stub has recorded one invocation, with the mapping of a and
b; with the counting stub, Code() then Message() leave the count at 1. -/
theorem C3_combine_invoked_once_witness :
    ((DictStatus.calls
        [Call.Code [("b", abB), ("a", abA)], Call.Message [],
         Call.Capture [] [("n", Status.nil)] (fun _ => captureFrame 7 "status.go"),
         Call.Code []]
        (openWorld abWorld.d.children recordingCombiner abHeap [])).2.d.combiner.state
        = ((openWorld abWorld.d.children recordingCombiner abHeap []).combined
            (Call.order (Call.Code [("b", abB), ("a", abA)]))).2.1 ∧
     (DictStatus.calls
        [Call.Code [("b", abB), ("a", abA)], Call.Message [],
         Call.Capture [] [("n", Status.nil)] (fun _ => captureFrame 7 "status.go"),
         Call.Code []]
        (openWorld abWorld.d.children recordingCombiner abHeap [])).2.combines
        = [] ++ [Call.order (Call.Code [("b", abB), ("a", abA)])] ∧
     (DictStatus.calls
        [Call.Code [("b", abB), ("a", abA)], Call.Message [],
         Call.Capture [] [("n", Status.nil)] (fun _ => captureFrame 7 "status.go"),
         Call.Code []]
        (openWorld abWorld.d.children recordingCombiner abHeap [])).2.d.base
        = Status.ptr 2) ∧
    (DictStatus.calls
        [Call.Code [("b", abB), ("a", abA)], Call.Message [],
         Call.Capture [] [("n", Status.nil)] (fun _ => captureFrame 7 "status.go"),
         Call.Code []]
        (openWorld abWorld.d.children recordingCombiner abHeap [])).2.d.combiner.state
      = [[("b", abB), ("a", abA)]] ∧
    (DictStatus.calls
        [Call.Code [("b", abB), ("a", abA)], Call.Message [],
         Call.Capture [] [("n", Status.nil)] (fun _ => captureFrame 7 "status.go"),
         Call.Code []]
        (openWorld abWorld.d.children recordingCombiner abHeap [])).1
      = [some (Value.code Ok), some (Value.message ""), none, some (Value.code Ok)] ∧
    (DictStatus.calls [Call.Code [], Call.Message []]
      (openWorld [] countingCombiner [] [])).2.d.combiner.state = 1 ∧
    (DictStatus.run [Call.Code [], Call.Message [], Call.Code []]
      (openWorld [] countingCombiner [] [])).2.d.combiner.state = 1 :=
  ⟨(C3_combine_invoked_once (openWorld abWorld.d.children recordingCombiner abHeap [])
      (Call.Code [("b", abB), ("a", abA)])
      [Call.Message [],
       Call.Capture [] [("n", Status.nil)] (fun _ => captureFrame 7 "status.go"),
       Call.Code []]
      (List.Perm.swap _ _ _)).2.1 rfl (Status.ptr 2) (by decide) (by decide),
   by decide, by decide, by decide, by decide⟩

/-- C3 as stated fails: with a combiner that returns nil the base stays nil, so on one new
DictStatus Code() panics after invoking Combine and, the panic recovered, Message() invokes
Combine again: the stub has counted two invocations, not one. -/
theorem C3_nil_combiner_invoked_again_counterexample :
    (DictStatus.calls [Call.Code [], Call.Message []]
      (openWorld [] nilCombiner [] [])).1 = [none, none] ∧
    (DictStatus.calls [Call.Code [], Call.Message []]
      (openWorld [] nilCombiner [] [])).2.d.combiner.state = 2 ∧
    (DictStatus.calls [Call.Code [], Call.Message []]
      (openWorld [] nilCombiner [] [])).2.combines.length = 2 ∧
    (DictStatus.calls [Call.Code [], Call.Message []]
      (openWorld [] nilCombiner [] [])).2.d.base = Status.nil ∧
    ¬ ((DictStatus.calls [Call.Code [], Call.Message []]
      (openWorld [] nilCombiner [] [])).2.d.combiner.state = 1) := by
  decide

/-- C9: for every DictStatus, whatever its combiner c (the default, or one set by SetCombiner
before the first read) and its children. On an open DictStatus Code(), Level(), Message(),
Frame() and GetPayload(k) as the first read return what the same accessor of the status
returned by `c.Combine(children)` returns, on the heap Combine left, and panic when Combine
panics or returns nil; when Combine returned a status other than nil, every read after the
first one returns what the same accessor returns on that same status. On a combined
DictStatus each of the five accessors returns what the same accessor of the base returns
and writes nothing, for every read of every sequence of reads. -/
theorem C9_accessors_delegate_to_combined_base {σ : Type} (w : World σ)
    (order : GoMap Status) :
    (w.d.base = Status.nil →
      (DictStatus.Code order w).1
        = (w.combined order).1.bind (fun b => Status.Code (w.combined order).2.2 b) ∧
      (DictStatus.Level order w).1
        = (w.combined order).1.bind (fun b => Status.Level (w.combined order).2.2 b) ∧
      (DictStatus.Message order w).1
        = (w.combined order).1.bind (fun b => Status.Message (w.combined order).2.2 b) ∧
      (DictStatus.Frame order w).1
        = (w.combined order).1.bind (fun b => Status.Frame (w.combined order).2.2 b) ∧
      (∀ k, (DictStatus.GetPayload order k w).1
        = (w.combined order).1.bind (fun b => Status.GetPayload (w.combined order).2.2 b k)) ∧
      ((w.combined order).1 = some Status.nil → (DictStatus.Code order w).1 = none)) ∧
    (w.d.base = Status.nil → ∀ b, (w.combined order).1 = some b → b ≠ Status.nil →
      (∀ o2, (DictStatus.Code o2 (DictStatus.Code order w).2).1
        = Status.Code (w.combined order).2.2 b) ∧
      (∀ o2, (DictStatus.Level o2 (DictStatus.Code order w).2).1
        = Status.Level (w.combined order).2.2 b) ∧
      (∀ o2, (DictStatus.Message o2 (DictStatus.Code order w).2).1
        = Status.Message (w.combined order).2.2 b) ∧
      (∀ o2, (DictStatus.Frame o2 (DictStatus.Code order w).2).1
        = Status.Frame (w.combined order).2.2 b) ∧
      (∀ o2 k, (DictStatus.GetPayload o2 k (DictStatus.Code order w).2).1
        = Status.GetPayload (w.combined order).2.2 b k) ∧
      (∀ c cs, c.isRead = true → c.order = order → (∀ x ∈ cs, x.isRead = true) →
        (DictStatus.calls (c :: cs) w).1
          = (c :: cs).map (fun x => x.onStatus (w.combined order).2.2 b))) ∧
    (w.d.base ≠ Status.nil →
      DictStatus.Code order w = (Status.Code w.heap w.d.base, w) ∧
      DictStatus.Level order w = (Status.Level w.heap w.d.base, w) ∧
      DictStatus.Message order w = (Status.Message w.heap w.d.base, w) ∧
      DictStatus.Frame order w = (Status.Frame w.heap w.d.base, w) ∧
      (∀ k, DictStatus.GetPayload order k w = (Status.GetPayload w.heap w.d.base k, w)) ∧
      (∀ cs, (∀ x ∈ cs, x.isRead = true) →
        DictStatus.calls cs w = (cs.map (fun x => x.onStatus w.heap w.d.base), w))) := by
  refine ⟨?_, ?_, ?_⟩
  · intro hb
    simp only [DictStatus.Code, DictStatus.Level, DictStatus.Message, DictStatus.Frame,
      DictStatus.GetPayload, DictStatus.ensureCombined, hb, if_true, World.combined]
    rcases hC : w.d.combiner.Combine w.d.combiner.state order w.heap with ⟨_ | b, st, h1⟩
    · simp
    · simp only [Option.some_bind, true_and, and_true, implies_true, Option.some.injEq]
      intro hnil
      rw [hnil]
      rfl
  · intro hb b hc hne
    have he := DictStatus.ensureCombined_open_some order w b hb hc
    have hw1 : (DictStatus.Code order w).2
        = { d := { base := b, children := w.d.children,
                   combiner := { state := (w.combined order).2.1,
                                 Combine := w.d.combiner.Combine } },
            heap := (w.combined order).2.2, combines := w.combines ++ [order] } := by
      simp only [DictStatus.Code, he]
    rw [hw1]
    have hcl : ∀ o2, DictStatus.ensureCombined o2
        ({ d := { base := b, children := w.d.children,
                  combiner := { state := (w.combined order).2.1,
                                Combine := w.d.combiner.Combine } },
           heap := (w.combined order).2.2, combines := w.combines ++ [order] } : World σ)
        = (some (), { d := { base := b, children := w.d.children,
                             combiner := { state := (w.combined order).2.1,
                                           Combine := w.d.combiner.Combine } },
                      heap := (w.combined order).2.2, combines := w.combines ++ [order] }) :=
      fun o2 => DictStatus.ensureCombined_closed o2 _ hne
    refine ⟨?_, ?_, ?_, ?_, ?_, ?_⟩
    · intro o2
      simp only [DictStatus.Code, hcl]
    · intro o2
      simp only [DictStatus.Level, hcl]
    · intro o2
      simp only [DictStatus.Message, hcl]
    · intro o2
      simp only [DictStatus.Frame, hcl]
    · intro o2 k
      simp only [DictStatus.GetPayload, hcl]
    · intro c cs hr hord hrs
      have hc2 : (w.combined c.order).1 = some b := by rw [hord]; exact hc
      have key := (DictStatus.calls_read_open c cs w b hb hc2 hne hr hrs).1
      rw [hord] at key
      exact key
  · intro hb
    have hcl := fun o2 => DictStatus.ensureCombined_closed o2 w hb
    refine ⟨?_, ?_, ?_, ?_, ?_, ?_⟩
    · simp only [DictStatus.Code, hcl]
    · simp only [DictStatus.Level, hcl]
    · simp only [DictStatus.Message, hcl]
    · simp only [DictStatus.Frame, hcl]
    · intro k
      simp only [DictStatus.GetPayload, hcl]
    · intro cs hrs
      exact DictStatus.calls_read_closed cs w hb hrs

/-- C9 at `NewDictStatus().AddChild("c", c)` with the counting stub set by SetCombiner before
the first read: Code(), then GetPayload("y"), Level() and Frame() all answer from the status
the stub returned (Ok, "", Info, no frame: the child's y = 2 is not read); and at the
combined DictStatus with base payload x = 1: GetPayload("x") is "1" and Level() is Info. -/
theorem C9_accessors_delegate_to_combined_base_witness :
    ((DictStatus.calls
        [Call.Code [("c", xyChild)], Call.GetPayload [] "y", Call.Level [], Call.Frame []]
        (DictStatus.SetCombiner countingCombiner xyOpen)).1
      = [Call.Code [("c", xyChild)], Call.GetPayload [] "y", Call.Level [],
         Call.Frame []].map
          (fun x => x.onStatus
            ((DictStatus.SetCombiner countingCombiner xyOpen).combined [("c", xyChild)]).2.2
            (Status.ptr 1))) ∧
    (DictStatus.calls
        [Call.Code [("c", xyChild)], Call.GetPayload [] "y", Call.Level [], Call.Frame []]
        (DictStatus.SetCombiner countingCombiner xyOpen)).1
      = [some (Value.code Ok), some (Value.payload ""), some (Value.level InfoLevel),
         some (Value.frames [])] ∧
    (DictStatus.calls [Call.GetPayload [] "x", Call.Level [], Call.GetPayload [] "y"]
        xyWorld
      = ([Call.GetPayload [] "x", Call.Level [], Call.GetPayload [] "y"].map
          (fun x => x.onStatus xyWorld.heap xyWorld.d.base), xyWorld)) ∧
    (DictStatus.calls [Call.GetPayload [] "x", Call.Level [], Call.GetPayload [] "y"]
        xyWorld).1
      = [some (Value.payload "1"), some (Value.level InfoLevel), some (Value.payload "")] ∧
    (DictStatus.Code [("c", xyChild)]
      (DictStatus.SetCombiner countingCombiner xyOpen)).2.d.combiner.state = 1 :=
  ⟨((C9_accessors_delegate_to_combined_base (DictStatus.SetCombiner countingCombiner xyOpen)
      [("c", xyChild)]).2.1 rfl (Status.ptr 1) (by decide) (by decide)).2.2.2.2.2
      (Call.Code [("c", xyChild)]) [Call.GetPayload [] "y", Call.Level [], Call.Frame []]
      rfl rfl (by decide),
   by decide,
   ((C9_accessors_delegate_to_combined_base xyWorld []).2.2 (by decide)).2.2.2.2.2
      [Call.GetPayload [] "x", Call.Level [], Call.GetPayload [] "y"] (by decide),
   by decide, by decide⟩

/-- The state of a visitor after a sequence of calls followed by another. -/
theorem visitorState_append {τ : Type} (fn : Visitor τ) (t : τ)
    (a b : List (String × String)) :
    visitorState fn t (a ++ b) = visitorState fn (visitorState fn t a) b := by
  simp [visitorState, List.foldl_append]

/-- The loop of status.WalkPayload leaves the visitor in the state its calls on the visited
entries, in this order, produce: it is called on these entries and on nothing else. -/
theorem walkLoop_state {τ : Type} (fn : Visitor τ) (order : List (String × String)) (t : τ) :
    (walkLoop fn order t).1 = visitorState fn t (walkLoop fn order t).2 := by
  obtain ⟨pre, rest, _, hvis, hst, _⟩ := walkLoop_prefix fn order t
  rw [hst, hvis]

/-- The loop over the children leaves the visitor in the state its calls on the visited
entries, in this order, produce. -/
theorem walkChildren_state {τ : Type} (fn : Visitor τ) (h : Heap)
    (loop : List (String × Status × List (String × String))) (t : τ) :
    (walkChildren fn h loop t).2.1 = visitorState fn t (walkChildren fn h loop t).2.2 := by
  induction loop generalizing t with
  | nil => rfl
  | cons e rest ih =>
    obtain ⟨k, s, order⟩ := e
    cases hd : h.deref s with
    | none => simp [walkChildren, Status.WalkPayload, hd, visitorState]
    | some o =>
      simp only [walkChildren, Status.WalkPayload, status.WalkPayload, hd]
      rw [ih (walkLoop fn order t).1, visitorState_append, ← walkLoop_state]

/-- With a visitor that always returns true the loop over live children returns and visits,
child after child, every entry the payload range of the child yields, in that order. -/
theorem walkChildren_always_true_list {τ : Type} (fn : Visitor τ)
    (htrue : ∀ s k v, (fn s k v).1 = true) (h : Heap)
    (loop : List (String × Status × List (String × String)))
    (hlive : ∀ e ∈ loop, (h.deref e.2.1).isSome = true) (t : τ) :
    (walkChildren fn h loop t).2.2 = loop.flatMap (fun e => e.2.2) := by
  induction loop generalizing t with
  | nil => simp [walkChildren]
  | cons e rest ih =>
    obtain ⟨k, s, order⟩ := e
    obtain ⟨o, ho⟩ := Option.isSome_iff_exists.mp (hlive (k, s, order) (by simp))
    have ih1 := ih (fun e he => hlive e (by simp [he])) (walkLoop fn order t).1
    simp only [walkChildren, Status.WalkPayload, status.WalkPayload, ho,
      walkLoop_always_true fn htrue, List.flatMap_cons, ih1]

/-- C10: for every combined DictStatus (live base, live leaf children) and a visitor that
always returns true, whatever the orders in which the runtime ranges over the base payload,
the children and each child payload, WalkPayload returns; the visitor is invoked on the
entries the base payload range yields and then, child after child, on the entries each child
payload range yields, and it is left in the state these calls, in this order, produce; as a
set these entries are exactly the payload entries of the base together with the payload
entries of every child; the DictStatus and the heap are not written. -/
theorem C10_walk_payload_visits_base_and_children {σ τ : Type} (fn : Visitor τ) (t : τ)
    (w : World σ) (b : status) (baseOrder : List (String × String))
    (loop : List (String × Status × List (String × String)))
    (htrue : ∀ s k v, (fn s k v).1 = true)
    (hbase : w.heap.deref w.d.base = some b)
    (hbo : baseOrder.Perm b.payload)
    (hloop : (loop.map (fun e => (e.1, e.2.1))).Perm w.d.children)
    (hord : ∀ e ∈ loop, ∃ o, w.heap.deref e.2.1 = some o ∧ e.2.2.Perm o.payload) :
    (DictStatus.WalkPayload fn t baseOrder loop w).1 = some () ∧
    (∀ kv, kv ∈ (DictStatus.WalkPayload fn t baseOrder loop w).2.2.1 ↔
      (kv ∈ b.payload ∨
        ∃ e ∈ w.d.children, ∃ o, w.heap.deref e.2 = some o ∧ kv ∈ o.payload)) ∧
    (DictStatus.WalkPayload fn t baseOrder loop w).2.2.2.heap = w.heap ∧
    (DictStatus.WalkPayload fn t baseOrder loop w).2.2.2.d.base = w.d.base ∧
    (DictStatus.WalkPayload fn t baseOrder loop w).2.2.1
      = baseOrder ++ loop.flatMap (fun e => e.2.2) ∧
    (DictStatus.WalkPayload fn t baseOrder loop w).2.1
      = visitorState fn t (baseOrder ++ loop.flatMap (fun e => e.2.2)) := by
  have hlive : ∀ e ∈ loop, (w.heap.deref e.2.1).isSome = true := by
    intro e he
    obtain ⟨o, ho, _⟩ := hord e he
    simp [ho]
  have hwc := walkChildren_always_true fn htrue w.heap loop hlive (walkLoop fn baseOrder t).1
  have hlist := walkChildren_always_true_list fn htrue w.heap loop hlive
    (walkLoop fn baseOrder t).1
  have hbl : (walkLoop fn baseOrder t).2 = baseOrder := walkLoop_always_true fn htrue _ _
  have hst1 : (walkLoop fn baseOrder t).1 = visitorState fn t baseOrder := by
    rw [walkLoop_state, hbl]
  have hst2 := walkChildren_state fn w.heap loop (walkLoop fn baseOrder t).1
  have hW : DictStatus.WalkPayload fn t baseOrder loop w
      = ((walkChildren fn w.heap loop (walkLoop fn baseOrder t).1).1,
         (walkChildren fn w.heap loop (walkLoop fn baseOrder t).1).2.1,
         baseOrder ++ (walkChildren fn w.heap loop (walkLoop fn baseOrder t).1).2.2, w) := by
    simp only [DictStatus.WalkPayload, Status.WalkPayload, status.WalkPayload, hbase,
      walkLoop_always_true fn htrue]
  rw [hW]
  refine ⟨hwc.1, ?_, rfl, rfl, ?_, ?_⟩
  · intro kv
    simp only [List.mem_append, hwc.2 kv, hbo.mem_iff]
    constructor
    · rintro (hb | ⟨e, he, hkv⟩)
      · exact Or.inl hb
      · obtain ⟨o, ho, hperm⟩ := hord e he
        refine Or.inr ⟨(e.1, e.2.1), ?_, o, ho, hperm.mem_iff.mp hkv⟩
        exact hloop.subset (List.mem_map.mpr ⟨e, he, rfl⟩)
    · rintro (hb | ⟨c, hc, o, ho, hkv⟩)
      · exact Or.inl hb
      · obtain ⟨e, he, hec⟩ := List.mem_map.mp (hloop.symm.subset hc)
        obtain ⟨o2, ho2, hperm⟩ := hord e he
        have hco : c.2 = e.2.1 := by rw [← hec]
        rw [hco, ho2] at ho
        cases ho
        exact Or.inr ⟨e, he, hperm.mem_iff.mpr hkv⟩
  · simp only [hlist]
  · simp only
    rw [hst2, hlist, hst1, ← visitorState_append]

/-- C10 at the DictStatus whose base has the payload x = 1, w = 4 and whose one child has the
payload y = 2, z = 3, ranged over as w, x and z, y, with a visitor that always returns true
and records its calls: it is called on (w, 4), (x, 1), (z, 3), (y, 2), four calls; and at the
base payload x = 1 with the child payload y = 2 the visited entries are (x, 1), (y, 2). -/
theorem C10_walk_payload_visits_base_and_children_witness :
    ((DictStatus.WalkPayload recordTrue [] [("w", "4"), ("x", "1")]
        [("c", xyChild, [("z", "3"), ("y", "2")])] wideWorld).1 = some () ∧
     (∀ kv, kv ∈ (DictStatus.WalkPayload recordTrue [] [("w", "4"), ("x", "1")]
          [("c", xyChild, [("z", "3"), ("y", "2")])] wideWorld).2.2.1 ↔
        (kv ∈ ((mkStatus InfoLevel Ok "" |>.SetPayload "x" "1").SetPayload "w" "4").payload ∨
          ∃ e ∈ wideWorld.d.children, ∃ o,
            wideWorld.heap.deref e.2 = some o ∧ kv ∈ o.payload)) ∧
     (DictStatus.WalkPayload recordTrue [] [("w", "4"), ("x", "1")]
        [("c", xyChild, [("z", "3"), ("y", "2")])] wideWorld).2.2.2.heap = wideWorld.heap ∧
     (DictStatus.WalkPayload recordTrue [] [("w", "4"), ("x", "1")]
        [("c", xyChild, [("z", "3"), ("y", "2")])] wideWorld).2.2.2.d.base
       = wideWorld.d.base ∧
     (DictStatus.WalkPayload recordTrue [] [("w", "4"), ("x", "1")]
        [("c", xyChild, [("z", "3"), ("y", "2")])] wideWorld).2.2.1
       = [("w", "4"), ("x", "1")]
         ++ List.flatMap [("c", xyChild, [("z", "3"), ("y", "2")])] (fun e => e.2.2) ∧
     (DictStatus.WalkPayload recordTrue [] [("w", "4"), ("x", "1")]
        [("c", xyChild, [("z", "3"), ("y", "2")])] wideWorld).2.1
       = visitorState recordTrue []
          ([("w", "4"), ("x", "1")]
            ++ List.flatMap [("c", xyChild, [("z", "3"), ("y", "2")])] (fun e => e.2.2))) ∧
    (DictStatus.WalkPayload recordTrue [] [("w", "4"), ("x", "1")]
        [("c", xyChild, [("z", "3"), ("y", "2")])] wideWorld).2.1
      = [("w", "4"), ("x", "1"), ("z", "3"), ("y", "2")] ∧
    (DictStatus.WalkPayload countTrue 0 [("w", "4"), ("x", "1")]
        [("c", xyChild, [("z", "3"), ("y", "2")])] wideWorld).2.1 = 4 ∧
    (DictStatus.WalkPayload recordTrue [] [("x", "1")] [("c", xyChild, [("y", "2")])]
        xyWorld).2.2.1 = [("x", "1"), ("y", "2")] ∧
    (DictStatus.WalkPayload recordTrue [] [("x", "1")] [("c", xyChild, [("y", "2")])]
        xyWorld).2.1 = [("x", "1"), ("y", "2")] :=
  ⟨C10_walk_payload_visits_base_and_children recordTrue [] wideWorld
      ((mkStatus InfoLevel Ok "" |>.SetPayload "x" "1").SetPayload "w" "4")
      [("w", "4"), ("x", "1")] [("c", xyChild, [("z", "3"), ("y", "2")])]
      (fun _ _ _ => rfl) (by decide) (List.Perm.swap _ _ _) (List.Perm.refl _)
      (fun e he => by
        have hE : e = ("c", xyChild, [("z", "3"), ("y", "2")]) := by simpa using he
        subst hE
        exact ⟨((mkStatus InfoLevel Ok "").SetPayload "y" "2").SetPayload "z" "3",
          by decide, List.Perm.swap _ _ _⟩),
   by decide, by decide, by decide, by decide⟩

end GoStatus
